import Mathlib

/-!
Verification of the gpu-pricing repository's normalization pipeline.

This file gives a shallow embedding of the provider adapters and the
standardization merge (src/aws.py, src/azure.py, src/ali.py, src/tencent.py,
src/fetch_all.py) and proves or refutes the frozen claims about them.

Modelling conventions:
* Python floats are modelled as rationals (`ℚ`); no claim here depends on
  binary floating-point rounding.
* Python strings are `String` / `List Char`; Python `str` helpers
  (`strip`, `lower`, `split`, `replace`, `in`) are re-implemented below with
  Python's documented semantics restricted to ASCII, which is all the source
  data uses.
* Fallible Python code is embedded in `Except PyExc`; an exception that the
  source catches is handled inside the definition, an exception the source
  does not catch surfaces as `Except.error`.
* Upstream network/file data that the code consumes is an explicit argument
  (a value of a response type), so an adapter is a pure function from the
  upstream response to its output.
-/

namespace GpuPricing

/-- Python exceptions that can escape the embedded code. -/
inductive PyExc where
  | indexError
  | zeroDivisionError
  | syntaxError
  | ioError
  deriving DecidableEq, Repr

/-- ASCII whitespace recognized by Python's `str.strip` / `\s`:
space, tab, newline, carriage return, vertical tab, form feed. -/
def isPySpace (c : Char) : Bool :=
  c = ' ' || c = '\t' || c = '\n' || c = '\r' || c = '\x0b' || c = '\x0c'

/-- Python `str.strip()` on a character list: drop whitespace from both ends. -/
def pyStripList (l : List Char) : List Char :=
  ((l.dropWhile isPySpace).reverse.dropWhile isPySpace).reverse

/-- Python `str.strip()`. -/
def pyStrip (s : String) : String := String.mk (pyStripList s.toList)

/-- Value of a decimal digit string (the integer a numeral denotes). -/
def natOfDigits (l : List Char) : Nat :=
  l.foldl (fun a c => a * 10 + (c.toNat - 48)) 0

/-- Nonempty string of decimal digits. -/
def isDigits (l : List Char) : Bool := !l.isEmpty && l.all (·.isDigit)

/-- Python `pat in s` (substring containment) on character lists. -/
def containsSub (pat : List Char) : List Char → Bool
  | [] => pat.isEmpty
  | c :: rest => pat.isPrefixOf (c :: rest) || containsSub pat rest

/-- Python `pat in s` (substring containment) on strings. -/
def strContainsSub (s pat : String) : Bool := containsSub pat.toList s.toList

/-- Python `s.split(sep, 1)` for a nonempty `sep`: split at the first
occurrence of `sep`; `none` when `sep` does not occur (one-element result). -/
def splitOnceAux (sep : List Char) : List Char → Option (List Char × List Char)
  | [] => none
  | c :: rest =>
    if sep.isPrefixOf (c :: rest) then some ([], (c :: rest).drop sep.length)
    else
      match splitOnceAux sep rest with
      | none => none
      | some (a, b) => some (c :: a, b)

/-- Python `s.split(sep)` for a nonempty `sep`, with explicit fuel; each
split consumes at least one character, so `l.length` fuel suffices. -/
def pySplitFuel (sep : List Char) : Nat → List Char → List (List Char)
  | 0, l => [l]
  | n + 1, l =>
    match splitOnceAux sep l with
    | none => [l]
    | some (a, b) => a :: pySplitFuel sep n b

/-- Python `s.split(sep)` on strings (nonempty `sep`). -/
def pySplitStr (s sep : String) : List String :=
  (pySplitFuel sep.toList (s.toList.length + 1) s.toList).map String.mk

/-- Python `s.replace(pat, rep)` (all occurrences, left to right,
non-overlapping), with explicit fuel for termination; a nonempty `pat`
consumes at least one character per step, so `l.length` fuel suffices. -/
def replaceAllFuel (pat rep : List Char) : Nat → List Char → List Char
  | 0, l => l
  | _ + 1, [] => []
  | n + 1, c :: rest =>
    if pat.isPrefixOf (c :: rest) then
      rep ++ replaceAllFuel pat rep n ((c :: rest).drop pat.length)
    else
      c :: replaceAllFuel pat rep n rest

/-- Python `s.replace(pat, rep)` for a nonempty `pat`. -/
def replaceAllL (l pat rep : List Char) : List Char :=
  replaceAllFuel pat rep l.length l

/-- Python `s.replace(pat, rep)` on strings. -/
def pyReplace (s pat rep : String) : String :=
  String.mk (replaceAllL s.toList pat.toList rep.toList)

/-- Python `str.lower()` on one character, restricted to ASCII (the only
characters that appear in the provider SKU names). -/
def pyLowerChar (c : Char) : Char :=
  if c = 'A' then 'a' else if c = 'B' then 'b' else if c = 'C' then 'c'
  else if c = 'D' then 'd' else if c = 'E' then 'e' else if c = 'F' then 'f'
  else if c = 'G' then 'g' else if c = 'H' then 'h' else if c = 'I' then 'i'
  else if c = 'J' then 'j' else if c = 'K' then 'k' else if c = 'L' then 'l'
  else if c = 'M' then 'm' else if c = 'N' then 'n' else if c = 'O' then 'o'
  else if c = 'P' then 'p' else if c = 'Q' then 'q' else if c = 'R' then 'r'
  else if c = 'S' then 's' else if c = 'T' then 't' else if c = 'U' then 'u'
  else if c = 'V' then 'v' else if c = 'W' then 'w' else if c = 'X' then 'x'
  else if c = 'Y' then 'y' else if c = 'Z' then 'z' else c

/-- Python `str.lower()` on a character list. -/
def pyLower (l : List Char) : List Char := l.map pyLowerChar

/-- `re.sub(r'v(\d)', r'\1', s)`: replace every (left-to-right,
non-overlapping) occurrence of `v` followed by a digit with the digit. -/
def subVDigit : List Char → List Char
  | [] => []
  | [c] => [c]
  | c :: d :: rest =>
    if c = 'v' && d.isDigit then d :: subVDigit rest
    else c :: subVDigit (d :: rest)

/-- `True` iff the list has no occurrence of `v` immediately followed by a
digit (no match of `r'v(\d)'`). -/
def noVDigit : List Char → Bool
  | [] => true
  | [_] => true
  | c :: d :: rest => !(c = 'v' && d.isDigit) && noVDigit (d :: rest)

/-- src/azure.py `normalize_instance_name` on a character list: strip
`Standard_`, `linux-`, `-standard`, lowercase, collapse `v<digit>` to
`<digit>`, drop `_` and `-`. -/
def normalizeNameList (l : List Char) : List Char :=
  let a := replaceAllL l "Standard_".toList []
  let b := replaceAllL a "linux-".toList []
  let c := replaceAllL b "-standard".toList []
  let d := pyLower c
  let e := subVDigit d
  let f := replaceAllL e "_".toList []
  replaceAllL f "-".toList []

/-- src/azure.py `normalize_instance_name`. -/
def normalize_instance_name (s : String) : String :=
  String.mk (normalizeNameList s.toList)

/-- The nine-field canonical record every adapter produces
(`standardize_instance_data` in each adapter). -/
structure StdRow where
  provider : String
  region : String
  instanceType : String
  vcpus : Int
  memoryGB : ℚ
  gpuType : String
  gpuCount : ℚ
  onDemand : ℚ
  spot : ℚ
  deriving DecidableEq, Repr

/-- Result of src/azure.py `parse_gpu_info`. -/
structure GpuInfo where
  gpuType : String
  gpuCount : ℚ
  deriving DecidableEq, Repr

/-- Outcome of Python `float(eval(text))` in `parse_gpu_info`'s fraction
branch. `eval` is a Python builtin, modelled here for the literal forms the
GPU descriptors use: a decimal integer gives its value, a zero-denominator
fraction raises `ZeroDivisionError`, an `<int>/<int>` fraction gives the true
division value, and any other expression text is mapped to an uncaught
`SyntaxError` (what `eval` raises on the malformed fragments relevant below,
such as a fraction with a missing numerator or denominator). -/
inductive EvalOut where
  | val (q : ℚ)
  | uncaught (e : PyExc)
  deriving DecidableEq, Repr

/-- `float(eval(text))`, see `EvalOut`. Surrounding whitespace is tolerated
by `eval`, hence the strip. -/
def pyEvalFloat (l : List Char) : EvalOut :=
  let t := pyStripList l
  if isDigits t then .val (natOfDigits t)
  else
    match splitOnceAux "/".toList t with
    | some (a, b) =>
      if isDigits a && isDigits b then
        if natOfDigits b = 0 then .uncaught .zeroDivisionError
        else .val ((natOfDigits a : ℚ) / (natOfDigits b : ℚ))
      else .uncaught .syntaxError
    | none => .uncaught .syntaxError

/-- Does the remainder after the lazy group match `(?:\s+\(.*\))?$` ?
Either the remainder is empty, or it is one-or-more whitespace, then `(`,
then any characters other than newline (`.` does not match `\n`), ending
with `)`. -/
def tailParenOk (q : List Char) : Bool :=
  q.isEmpty ||
    (!(q.takeWhile isPySpace).isEmpty &&
      match q.dropWhile isPySpace with
      | c :: r =>
        c = '(' && !r.isEmpty && (r.getLast? == some ')') && r.dropLast.all (· != '\n')
      | [] => false)

/-- The lazy group `(.+?)` of the regex
`(\d+)(?:x|X)\s+(.+?)(?:\s+\(.*\))?$`: the shortest nonempty newline-free
prefix of the input whose remainder matches `(?:\s+\(.*\))?$`. -/
def findLazyGroup : List Char → List Char → Option (List Char)
  | _, [] => none
  | acc, c :: rest =>
    if c = '\n' then none
    else if tailParenOk rest then some (acc ++ [c])
    else findLazyGroup (acc ++ [c]) rest

/-- `re.match(r'(\d+)(?:x|X)\s+(.+?)(?:\s+\(.*\))?$', s)` with the two groups
of a successful match. `\d+` takes the maximal digit prefix (a shorter one
would be followed by a digit, never by `x`/`X`); `\s+` takes the maximal
whitespace run, except that when nothing follows it the engine backtracks and
the lazy group captures the last whitespace character (possible only when the
run has length at least two and that character is not a newline, since `.`
does not match newline). -/
def regexMatchGpu (l : List Char) : Option (Nat × List Char) :=
  let ds := l.takeWhile (·.isDigit)
  if ds.isEmpty then none
  else
    match l.drop ds.length with
    | [] => none
    | x :: afterX =>
      if x = 'x' || x = 'X' then
        let ws := afterX.takeWhile isPySpace
        if ws.isEmpty then none
        else
          match afterX.drop ws.length with
          | [] =>
            if 2 ≤ ws.length then
              match ws.getLast? with
              | some wlast => if wlast = '\n' then none else some (natOfDigits ds, [wlast])
              | none => none
            else none
          | r :: rest3 => (findLazyGroup [] (r :: rest3)).map (fun g => (natOfDigits ds, g))
      else none

/-- src/azure.py `parse_gpu_info`. Empty input returns `None`; an input
containing `/` goes to the fraction branch (`split('X ', 1)` then
`float(eval(...))`, where only `ValueError`/`AttributeError` are caught, so
`SyntaxError`/`ZeroDivisionError` from `eval` escape); otherwise the regex
branch, which never raises. -/
def parse_gpu_info (s : String) : Except PyExc (Option GpuInfo) :=
  if s = "" then .ok none
  else if '/' ∈ s.toList then
    match splitOnceAux "X ".toList s.toList with
    | none => .ok none
    | some (p0, p1) =>
      match pyEvalFloat p0 with
      | .uncaught e => .error e
      | .val q => .ok (some ⟨String.mk (pyStripList p1), q⟩)
  else
    match regexMatchGpu s.toList with
    | some (n, g) => .ok (some ⟨String.mk (pyStripList g), (n : ℚ)⟩)
    | none => .ok none

/-! ## Azure adapter (src/azure.py) -/

/-- Outcome of one upstream HTTP fetch: a `requests` transport error
(`RequestException`, which the source catches) or a payload. -/
inductive Fetched (α : Type) where
  | transportError
  | ok (a : α)

/-- One record of the Azure retail-prices feed, at the shape
`get_vm_pricing_data` returns (`armSkuName`, `skuName`, `retailPrice`,
`isPrimaryMeterRegion`). -/
structure AzPriceItem where
  armSkuName : String
  skuName : String
  retailPrice : ℚ
  isPrimaryMeterRegion : Bool
  deriving DecidableEq, Repr

/-- src/azure.py `get_vm_pricing_data` (non-China path): a transport error is
caught and yields `[]`; otherwise the paginated items filtered to
`isPrimaryMeterRegion`. -/
def azure_get_vm_pricing_data (f : Fetched (List AzPriceItem)) : List AzPriceItem :=
  match f with
  | .transportError => []
  | .ok items => items.filter (·.isPrimaryMeterRegion)

/-- One entry of the Azure instance-details feed (`attributesByOffer`):
the fields `get_gpu_instances` reads, each optional as in the raw JSON. -/
structure AzDetails where
  gpu : Option String
  instanceName : Option String
  cores : Option Int
  ram : Option ℚ
  deriving DecidableEq, Repr

/-- Value of the Azure `pricing_lookup` dictionary. -/
structure AzPricing where
  onDemand : ℚ
  spot : ℚ
  originalName : String
  deriving DecidableEq, Repr

/-- Update the assoc-list value at key `k` (models mutating a dict entry;
keys are unique by construction). -/
def updateAssoc (l : List (String × AzPricing)) (k : String) (f : AzPricing → AzPricing) :
    List (String × AzPricing) :=
  l.map (fun p => if p.1 = k then (p.1, f p.2) else p)

/-- One step of building `pricing_lookup` in src/azure.py
`get_gpu_instances`: skip empty SKU names, insert a zero entry for a new
normalized name (keeping the first original name), then set the spot or
on-demand price depending on whether `'Spot'` occurs in `skuName`. -/
def azUpdateLookup (lookup : List (String × AzPricing)) (item : AzPriceItem) :
    List (String × AzPricing) :=
  if item.armSkuName = "" then lookup
  else
    let n := normalize_instance_name item.armSkuName
    let withEntry :=
      if (lookup.lookup n).isSome then lookup
      else lookup ++ [(n, ⟨0, 0, item.armSkuName⟩)]
    updateAssoc withEntry n (fun p =>
      if strContainsSub item.skuName "Spot" then { p with spot := item.retailPrice }
      else { p with onDemand := item.retailPrice })

/-- The `pricing_lookup` dictionary of src/azure.py `get_gpu_instances`. -/
def azBuildLookup (items : List AzPriceItem) : List (String × AzPricing) :=
  items.foldl azUpdateLookup []

/-- The `name_variations` fallback list of src/azure.py `get_gpu_instances`. -/
def azNameVariations (normalized : String) : List String :=
  [normalized, "standard" ++ normalized,
   pyReplace normalized "r" "", pyReplace normalized "s" ""]

/-- Find pricing by trying each name variation in order (the for/break). -/
def azFindPricing (lookup : List (String × AzPricing)) (normalized : String) :
    Option AzPricing :=
  (azNameVariations normalized).findSome? (fun v => lookup.lookup v)

/-- A pre-standardization Azure GPU instance row. -/
structure AzRow where
  instanceType : String
  vcpus : Int
  memoryGB : ℚ
  gpuType : String
  gpuCount : ℚ
  onDemand : ℚ
  spot : ℚ
  region : String
  deriving DecidableEq, Repr

/-- The body of the details loop of src/azure.py `get_gpu_instances` for one
`(instance_key, details)` entry: skip entries without `gpu`, skip unparsable
descriptors (`None` from `parse_gpu_info`; its uncaught exceptions
propagate), skip entries with no pricing match, and — the
"Only include instances with pricing data" condition — skip entries whose
on-demand price is not strictly positive. -/
def azProcessDetail (lookup : List (String × AzPricing)) (region : String)
    (kv : String × AzDetails) : Except PyExc (Option AzRow) :=
  match kv.2.gpu with
  | none => .ok none
  | some gpuStr =>
    match parse_gpu_info gpuStr with
    | .error e => .error e
    | .ok none => .ok none
    | .ok (some gi) =>
      let normalized := normalize_instance_name kv.1
      match azFindPricing lookup normalized with
      | none => .ok none
      | some pricing =>
        if pricing.onDemand > 0 then
          .ok (some { instanceType := kv.2.instanceName.getD pricing.originalName,
                      vcpus := kv.2.cores.getD 0,
                      memoryGB := kv.2.ram.getD 0,
                      gpuType := gi.gpuType,
                      gpuCount := gi.gpuCount,
                      onDemand := pricing.onDemand,
                      spot := pricing.spot,
                      region := region })
        else .ok none

/-- The details loop of src/azure.py `get_gpu_instances`. -/
def azFoldDetails (lookup : List (String × AzPricing)) (region : String) :
    List (String × AzDetails) → Except PyExc (List AzRow)
  | [] => .ok []
  | kv :: rest =>
    match azProcessDetail lookup region kv with
    | .error e => .error e
    | .ok r? =>
      match azFoldDetails lookup region rest with
      | .error e => .error e
      | .ok tail => .ok (match r? with | some r => r :: tail | none => tail)

/-- src/azure.py `get_gpu_instances`: fetch pricing and details, return `[]`
when either is missing, else build the lookup and process every detail
entry. -/
def azure_get_gpu_instances (region : String)
    (pricingFetch : Fetched (List AzPriceItem))
    (detailsFetch : Fetched (List (String × AzDetails))) :
    Except PyExc (List AzRow) :=
  let pricingData := azure_get_vm_pricing_data pricingFetch
  let instanceDetails := match detailsFetch with | .transportError => [] | .ok d => d
  if pricingData.isEmpty || instanceDetails.isEmpty then .ok []
  else azFoldDetails (azBuildLookup pricingData) region instanceDetails

/-- src/azure.py `standardize_instance_data`. -/
def azure_standardize_instance_data (r : AzRow) : StdRow :=
  ⟨"Azure", r.region, r.instanceType, r.vcpus, r.memoryGB, r.gpuType,
   r.gpuCount, r.onDemand, r.spot⟩

/-- src/azure.py `get_standardized_gpu_instances`. -/
def azure_get_standardized_gpu_instances (region : String)
    (pricingFetch : Fetched (List AzPriceItem))
    (detailsFetch : Fetched (List (String × AzDetails))) :
    Except PyExc (List StdRow) :=
  match azure_get_gpu_instances region pricingFetch detailsFetch with
  | .error e => .error e
  | .ok g => .ok (g.map azure_standardize_instance_data)

/-! ## Tencent adapter (src/tencent.py) -/

/-- `CNY_TO_USD = 0.138`. -/
def CNY_TO_USD : ℚ := 138 / 1000

/-- One entry of `InstanceTypeQuotaSet`, with the fields the code reads,
each optional (`instance.get(..., default)` semantics). `priceUnitPrice`
models `Price.UnitPrice`, `gpuDesc` models `Externals.GPUDesc`. -/
structure TcInstance where
  instanceType : Option String
  cpu : Option Int
  memory : Option ℚ
  gpu : Option Int
  gpuCount : Option ℚ
  priceUnitPrice : Option ℚ
  gpuDesc : Option String
  deriving DecidableEq, Repr

/-- Upstream outcome of the Tencent workbench POST: transport error
(caught), a response missing `data`/`data.Response` (the "Unexpected
response format" early return), or a response whose `InstanceTypeQuotaSet`
may be absent (defaulted to `[]`). -/
inductive TcFetch where
  | transportError
  | badFormat
  | response (quota : Option (List TcInstance))

/-- A pre-standardization Tencent row. -/
structure TcRow where
  instanceType : String
  vcpus : Int
  memoryGB : ℚ
  gpuType : String
  gpuCount : ℚ
  onDemand : ℚ
  deriving DecidableEq, Repr

/-- The loop body of src/tencent.py `get_instance_types_with_gpu` for one
instance: instances pass the filter `instance.get('Gpu', 0) > 0`; memory is
converted GiB→GB by `* 1.074`; the price is `UnitPrice * CNY_TO_USD`; the
GPU type is `instance.get('Externals', {}).get('GPUDesc', "0 * N/A").split(" * ")[1]`,
which raises `IndexError` when the descriptor has no `" * "` separator —
`IndexError` is not a `RequestException`, so the surrounding handler does
not catch it. (The `gpu_family` local of the source is computed but unused.) -/
def tcProcessInstance (inst : TcInstance) : Except PyExc (Option TcRow) :=
  if inst.gpu.getD 0 > 0 then
    match (pySplitStr (inst.gpuDesc.getD "0 * N/A") " * ").get? 1 with
    | some gpuType =>
      .ok (some { instanceType := inst.instanceType.getD "",
                  vcpus := inst.cpu.getD 0,
                  memoryGB := inst.memory.getD 0 * (1074 / 1000),
                  gpuType := gpuType,
                  gpuCount := inst.gpuCount.getD 0,
                  onDemand := inst.priceUnitPrice.getD 0 * CNY_TO_USD })
    | none => .error .indexError
  else .ok none

/-- The instance loop of src/tencent.py `get_instance_types_with_gpu`. -/
def tcFold : List TcInstance → Except PyExc (List TcRow)
  | [] => .ok []
  | i :: rest =>
    match tcProcessInstance i with
    | .error e => .error e
    | .ok r? =>
      match tcFold rest with
      | .error e => .error e
      | .ok tail => .ok (match r? with | some r => r :: tail | none => tail)

/-- src/tencent.py `get_instance_types_with_gpu`. A transport error is
caught (`except requests.exceptions.RequestException`) and yields `[]`; a
malformed response yields `[]`; otherwise the quota set (default `[]`) is
processed. -/
def tencent_get_instance_types_with_gpu (region : String) (fetch : TcFetch) :
    Except PyExc (List TcRow) :=
  match fetch with
  | .transportError => .ok []
  | .badFormat => .ok []
  | .response quota => tcFold (quota.getD [])

/-- src/tencent.py `standardize_instance_data` (spot price is the 0.0
sentinel: no spot API). -/
def tencent_standardize_instance_data (r : TcRow) (region : String) : StdRow :=
  ⟨"Tencent", region, r.instanceType, r.vcpus, r.memoryGB, r.gpuType,
   r.gpuCount, r.onDemand, 0⟩

/-- src/tencent.py `get_standardized_gpu_instances`. -/
def tencent_get_standardized_gpu_instances (region : String) (fetch : TcFetch) :
    Except PyExc (List StdRow) :=
  match tencent_get_instance_types_with_gpu region fetch with
  | .error e => .error e
  | .ok gpu =>
    if gpu.isEmpty then .ok []
    else .ok (gpu.map (tencent_standardize_instance_data · region))

/-! ## Alibaba adapter (src/ali.py) -/

/-- One parsed entry of `instanceTypeDefinition.js`, with the fields
`get_gpu_instances` reads, each optional (`instance.get` semantics; entries
that are not JSON objects are skipped by the source and are not modelled). -/
structure AliInstanceDef where
  gpuAmount : Option Int
  instanceTypeId : Option String
  cpuCoreCount : Option Int
  memorySize : Option ℚ
  gpuSpec : Option String
  deriving DecidableEq, Repr

/-- A pre-pricing Alibaba GPU instance row. -/
structure AliRow where
  instanceType : String
  vcpus : Int
  memoryGB : ℚ
  gpuType : String
  gpuCount : Int
  deriving DecidableEq, Repr

/-- src/ali.py `get_gpu_instances`: keep an instance iff
`GPUAmount > 0`, `InstanceTypeId` is truthy (present and nonempty) and the
type is in the available set; the emitted GPU Count is the same
`GPUAmount`. -/
def ali_get_gpu_instances (instances : List AliInstanceDef) (available : List String) :
    List AliRow :=
  instances.filterMap (fun inst =>
    let gpuAmount := inst.gpuAmount.getD 0
    match inst.instanceTypeId with
    | some t =>
      if 0 < gpuAmount ∧ t ≠ "" ∧ t ∈ available then
        some ⟨t, inst.cpuCoreCount.getD 0, inst.memorySize.getD 0,
              inst.gpuSpec.getD "", gpuAmount⟩
      else none
    | none => none)

/-- `hours[0]` of one `pricingInfo` value: `price` may be absent
(`.get('price', 0)`). -/
structure AliHourEntry where
  price : Option ℚ
  deriving DecidableEq, Repr

/-- One `pricingInfo` value: the `hours` list may be absent. -/
structure AliPriceInfo where
  hours : Option (List AliHourEntry)
  deriving DecidableEq, Repr

/-- The key test of src/ali.py `get_prices`: split on `::`, at least two
parts, region and instance type match, and `"vpc"` and `"linux"` occur in
the key. -/
def aliMatchKey (key : String) (region instType : String) : Bool :=
  match pySplitStr key "::" with
  | p0 :: p1 :: _ =>
    p0 == region && p1 == instType && strContainsSub key "vpc" && strContainsSub key "linux"
  | _ => false

/-- The inner loop of src/ali.py `get_prices` for one instance: scan the
pricing entries in order; the first matching key that also has a nonempty
`hours` list sets the price (`hours[0].get('price', 0)`) and breaks; a
matching key without hours does not break; no match leaves the 0.0
sentinel. -/
def aliLookupPrice (pricing : List (String × AliPriceInfo)) (region instType : String) : ℚ :=
  match pricing with
  | [] => 0
  | (k, info) :: rest =>
    if aliMatchKey k region instType then
      match info.hours with
      | some (h :: _) => h.price.getD 0
      | _ => aliLookupPrice rest region instType
    else aliLookupPrice rest region instType

/-- src/ali.py `get_prices`: every instance is kept and annotated with its
price (the source mutates each dict in place; modelled as pairing). -/
def ali_get_prices (gpuInstances : List AliRow) (region : String)
    (pricing : List (String × AliPriceInfo)) : List (AliRow × ℚ) :=
  gpuInstances.map (fun r => (r, aliLookupPrice pricing region r.instanceType))

/-- src/ali.py `standardize_instance_data` (spot price is the 0.0
sentinel). -/
def ali_standardize_instance_data (rp : AliRow × ℚ) (region : String) : StdRow :=
  ⟨"Alibaba", region, rp.1.instanceType, rp.1.vcpus, rp.1.memoryGB,
   rp.1.gpuType, (rp.1.gpuCount : ℚ), rp.2, 0⟩

/-! ## AWS adapter (src/aws.py) -/

/-- Outcome of one iteration of the `while (price == 0.0)` loop of
src/aws.py `get_on_demand_price`, as the upstream produces it:
`emptyList` — `get_products` succeeded but `PriceList` was empty;
`parsed q` — a price `q` was parsed from the first price-list entry
(after any CNY conversion); `exn` — an exception was raised during the
attempt (caught by the `except Exception` handler, which only prints). -/
inductive AwsPriceResp where
  | emptyList
  | parsed (q : ℚ)
  | exn
  deriving DecidableEq, Repr

/-- src/aws.py `get_on_demand_price`, embedded over the finite sequence of
upstream responses it consumes, one per loop iteration, with the running
`retries` counter. `some q` means the function returns `q` within the given
responses; `none` means the loop is still running after consuming all of
them (so an infinite response stream whose every prefix yields `none` makes
the source spin forever). A parsed nonzero price returns immediately; a
parsed zero increments `retries` and returns `0.0` once `retries > 3`; an
empty `PriceList` or an exception leaves `retries` unchanged and loops. -/
def get_on_demand_price : List AwsPriceResp → Nat → Option ℚ
  | [], _ => none
  | r :: rest, retries =>
    match r with
    | .exn => get_on_demand_price rest retries
    | .emptyList => get_on_demand_price rest retries
    | .parsed q =>
      if q ≠ 0 then some q
      else if retries + 1 > 3 then some 0
      else get_on_demand_price rest (retries + 1)

/-! ## Merge and output (src/fetch_all.py) -/

/-- A cell of the merged DataFrame: Python `None`/`NaN`, a string, or a
number. -/
inductive CellVal where
  | none
  | str (s : String)
  | num (q : ℚ)
  deriving DecidableEq, Repr

/-- A row of the merged table: an association list, as a Python dict row. -/
abbrev MRow := List (String × CellVal)

/-- The nine canonical columns (`required_columns` in `fetch_prices`). -/
def requiredColumns : List String :=
  ["Provider", "Region", "Instance Type", "vCPUs", "Memory (GB)",
   "GPU Type", "GPU Count", "On-Demand Price ($/hr)", "Spot Price ($/hr)"]

/-- Outcome of one `(provider, region)` iteration in `fetch_prices`:
the provider is not in `provider_map` (skipped), the adapter call raised
(caught by the `except Exception` handler and skipped), or it returned a
row list. -/
inductive FetchOutcome where
  | unsupported
  | raised
  | fetched (rows : List MRow)
  deriving DecidableEq, Repr

/-- The provider loop of src/fetch_all.py `fetch_prices`: unsupported
providers and raised calls contribute nothing; an empty result is skipped
(`if not instances: continue`); otherwise the rows are appended. -/
def collectOutcomes : List FetchOutcome → List MRow
  | [] => []
  | .unsupported :: rest => collectOutcomes rest
  | .raised :: rest => collectOutcomes rest
  | .fetched rows :: rest =>
    (if rows.isEmpty then [] else rows) ++ collectOutcomes rest

/-- The column-completion step of `fetch_prices`
(`if col not in df.columns: df[col] = None` followed by
`df = df[required_columns]`): per row, every required column is present,
with `None` — not a 0.0/empty-string default — where the row has no
value. -/
def ensureColumns (r : MRow) : MRow :=
  requiredColumns.map (fun c => (c, (r.lookup c).getD CellVal.none))

/-- src/fetch_all.py `fetch_prices`: collect all adapter outputs; when
nothing was collected, return the empty DataFrame `pd.DataFrame()` (which
has no rows and no columns); otherwise the collected rows restricted and
completed to the nine canonical columns. -/
def fetch_prices (outcomes : List FetchOutcome) : List MRow :=
  let allData := collectOutcomes outcomes
  if allData.isEmpty then [] else allData.map ensureColumns

/-- The three columns `main` numerically formats. -/
def numericColumns : List String :=
  ["Memory (GB)", "On-Demand Price ($/hr)", "Spot Price ($/hr)"]

/-- `pd.to_numeric(..., errors='coerce').fillna(0)` on one cell: a number
stays itself, null becomes 0. (A numeric string would be parsed by
`to_numeric`; adapter outputs never put strings in numeric columns, so
string cells are not modelled beyond the coercion default.) -/
def coerceNumeric : CellVal → ℚ
  | .num q => q
  | _ => 0

/-- The numeric-formatting step of src/fetch_all.py `main`, applied to one
row: only the three columns of `numericColumns` are coerced (null→0.0); the
other six columns are left exactly as they are, nulls included. The
decimal-place string rendering at CSV serialization keeps the same values
and is not modelled. -/
def formatRow (r : MRow) : MRow :=
  r.map (fun p => if p.1 ∈ numericColumns then (p.1, CellVal.num (coerceNumeric p.2)) else p)

/-- src/fetch_all.py `main` up to the output artifact: when the merged
DataFrame is empty, `main` prints "No data collected" and returns — writing
no CSV at all (`none`); otherwise the formatted rows are written
(row sorting does not change any row multiset and is not modelled). -/
def mainOutput (outcomes : List FetchOutcome) : Option (List MRow) :=
  let df := fetch_prices outcomes
  if df.isEmpty then none else some (df.map formatRow)

/-- "This adapter iteration contributed zero rows": unsupported provider,
raised call, or an empty result list. -/
def contributesZero : FetchOutcome → Bool
  | .unsupported => true
  | .raised => true
  | .fetched rows => rows.isEmpty

/-- A sample merged-table row used to instantiate hypotheses. -/
def sampleRow : MRow := [("Provider", CellVal.str "AWS")]

/-- A sample fully-populated merged-table row. -/
def fullSampleRow : MRow :=
  [("Provider", CellVal.str "AWS"), ("Region", CellVal.str "us-west-2"),
   ("Instance Type", CellVal.str "p3.2xlarge"), ("vCPUs", CellVal.num 8),
   ("Memory (GB)", CellVal.num 61), ("GPU Type", CellVal.str "V100"),
   ("GPU Count", CellVal.num 1), ("On-Demand Price ($/hr)", CellVal.num 3),
   ("Spot Price ($/hr)", CellVal.num 1)]

/-- A sample Alibaba catalog entry (GPU instance). -/
def aliSampleDef : AliInstanceDef :=
  ⟨some 1, some "ecs.gn6i-c4g1.xlarge", some 4, some 15, some "NVIDIA T4"⟩

/-- The row `ali_get_gpu_instances` builds from `aliSampleDef`. -/
def aliSampleRow : AliRow := ⟨"ecs.gn6i-c4g1.xlarge", 4, 15, "NVIDIA T4", 1⟩

/-- A sample Tencent quota entry whose `Gpu` field is positive but whose
`GpuCount` field is absent. -/
def tcSampleInstance : TcInstance :=
  ⟨some "GN7.LARGE20", some 4, some 20, some 1, none, some 5, some "1 * NVIDIA T4"⟩

/-- The row `tcProcessInstance` builds from `tcSampleInstance`. -/
def tcSampleRow : TcRow :=
  ⟨"GN7.LARGE20", 4, 20 * (1074 / 1000), "NVIDIA T4", 0, 5 * (138 / 1000)⟩

/-- Sample Azure retail-price items matching the `NC6` SKU. -/
def azSamplePriceItems : List AzPriceItem :=
  [⟨"Standard_NC6", "NC6", 9, true⟩, ⟨"Standard_NC6", "NC6 Spot", 2, true⟩]

/-- A sample Azure details entry for a GPU instance. -/
def azSampleDetails : List (String × AzDetails) :=
  [("linux-nc6-standard", ⟨some "1X V100", some "NC6", some 6, some 112⟩)]

/-- The row `azure_get_gpu_instances` builds from the samples above. -/
def azSampleOut : AzRow := ⟨"NC6", 6, 112, "V100", 1, 9, 2, "westus2"⟩

/-- An Azure price item whose SKU does not match the sample details. -/
def azNoMatchPriceItems : List AzPriceItem := [⟨"Standard_D2_v3", "D2 v3", 1, true⟩]

/-! ## Supporting lemmas -/

/-- The provider loop contributes nothing when every outcome is empty. -/
theorem collectOutcomes_eq_nil (oc : List FetchOutcome)
    (h : ∀ o ∈ oc, contributesZero o = true) : collectOutcomes oc = [] := by
  induction oc with
  | nil => rfl
  | cons o rest ih =>
    have ho := h o (List.mem_cons_self o rest)
    have hrest := ih (fun x hx => h x (List.mem_cons_of_mem o hx))
    cases o with
    | unsupported => simpa [collectOutcomes] using hrest
    | raised => simpa [collectOutcomes] using hrest
    | fetched rows =>
      simp only [contributesZero] at ho
      simp [collectOutcomes, ho, hrest]

/-- Row counts survive the DataFrame construction of `fetch_prices`. -/
theorem fetch_prices_length (oc : List FetchOutcome) :
    (fetch_prices oc).length = (collectOutcomes oc).length := by
  unfold fetch_prices
  by_cases h : (collectOutcomes oc).isEmpty
  · simp [h, List.isEmpty_iff.mp h]
  · simp [h]

/-- The collected length over successful adapters is the sum of lengths. -/
theorem collectOutcomes_fetched_length (outs : List (List MRow)) :
    (collectOutcomes (outs.map FetchOutcome.fetched)).length =
      (outs.map List.length).sum := by
  induction outs with
  | nil => rfl
  | cons h t ih =>
    by_cases hh : h.isEmpty
    · simp [collectOutcomes, hh, ih, List.isEmpty_iff.mp hh]
    · simp [collectOutcomes, hh, ih]

/-- A positive on-demand price is forced by the inclusion test of the Azure
details loop. -/
theorem azProcessDetail_pos (lookup : List (String × AzPricing)) (region : String)
    (kv : String × AzDetails) (r : AzRow)
    (h : azProcessDetail lookup region kv = .ok (some r)) : 0 < r.onDemand := by
  unfold azProcessDetail at h
  split at h
  · simp at h
  · split at h
    · simp at h
    · simp at h
    · dsimp only at h
      split at h
      · simp at h
      · split at h
        · next pricing _ hpos =>
            have hr := h
            simp only [Except.ok.injEq, Option.some.injEq] at hr
            subst hr
            simpa using hpos
        · simp at h

/-- Every row produced by the Azure details loop has a positive on-demand
price. -/
theorem azFoldDetails_pos (lookup : List (String × AzPricing)) (region : String) :
    ∀ (l : List (String × AzDetails)) (rows : List AzRow),
      azFoldDetails lookup region l = .ok rows → ∀ r ∈ rows, 0 < r.onDemand := by
  intro l
  induction l with
  | nil =>
    intro rows h r hr
    simp only [azFoldDetails] at h
    cases h
    simp at hr
  | cons kv rest ih =>
    intro rows h r hr
    simp only [azFoldDetails] at h
    rcases hd : azProcessDetail lookup region kv with e | r? <;> rw [hd] at h
    · simp at h
    · rcases ht : azFoldDetails lookup region rest with e | tail <;> rw [ht] at h
      · simp at h
      · simp only [Except.ok.injEq] at h
        subst h
        rcases r? with _ | r0
        · exact ih tail ht r hr
        · rcases List.mem_cons.mp hr with hre | hrt
          · subst hre
            exact azProcessDetail_pos lookup region kv r hd
          · exact ih tail ht r hrt

/-- A pricing table in which no key matches makes `aliLookupPrice` return
the 0.0 sentinel. -/
theorem aliLookupPrice_of_no_match (region instType : String) :
    ∀ pricing : List (String × AliPriceInfo),
      (∀ pr ∈ pricing, ∀ t, aliMatchKey pr.1 region t = false) →
      aliLookupPrice pricing region instType = 0 := by
  intro pricing
  induction pricing with
  | nil => intro _; rfl
  | cons p rest ih =>
    intro h
    have hp := h p (List.mem_cons_self p rest)
    have hrest := ih (fun x hx => h x (List.mem_cons_of_mem p hx))
    obtain ⟨k, info⟩ := p
    have hk := hp instType
    simp only at hk
    simp [aliLookupPrice, hk, hrest]

/-- Every merged row is the column completion of some collected row. -/
theorem mem_fetch_prices {outcomes : List FetchOutcome} {r : MRow}
    (hr : r ∈ fetch_prices outcomes) :
    ∃ a ∈ collectOutcomes outcomes, r = ensureColumns a := by
  unfold fetch_prices at hr
  by_cases h : (collectOutcomes outcomes).isEmpty
  · simp [h] at hr
  · simp only [h, if_false, Bool.false_eq_true] at hr
    obtain ⟨a, ha, rfl⟩ := List.mem_map.mp hr
    exact ⟨a, ha, rfl⟩

/-- A prefix of a list only uses its characters. -/
theorem mem_of_isPrefixOf {pat l : List Char} (h : pat.isPrefixOf l = true) :
    ∀ y ∈ pat, y ∈ l := by
  induction pat generalizing l with
  | nil => intro y hy; simp at hy
  | cons a as ih =>
    cases l with
    | nil => simp [List.isPrefixOf] at h
    | cons b bs =>
      simp only [List.isPrefixOf, Bool.and_eq_true, beq_iff_eq] at h
      obtain ⟨rfl, h2⟩ := h
      intro y hy
      rcases List.mem_cons.mp hy with rfl | hy2
      · exact List.mem_cons_self _ _
      · exact List.mem_cons_of_mem _ (ih h2 y hy2)

/-- `replace` is the identity when some pattern character is absent. -/
theorem replaceAllFuel_of_not_mem {x : Char} {pat rep : List Char} (hx : x ∈ pat) :
    ∀ (fuel : Nat) (l : List Char), x ∉ l → replaceAllFuel pat rep fuel l = l := by
  intro fuel
  induction fuel with
  | zero => intro l _; rfl
  | succ n ih =>
    intro l hl
    cases l with
    | nil => rfl
    | cons c rest =>
      have hpre : pat.isPrefixOf (c :: rest) = false := by
        by_contra hcon
        rw [Bool.not_eq_false] at hcon
        exact hl (mem_of_isPrefixOf hcon x hx)
      have hrest : x ∉ rest := fun hm => hl (List.mem_cons_of_mem _ hm)
      simp [replaceAllFuel, hpre, ih rest hrest]

/-- `replace` is the identity when some pattern character is absent. -/
theorem replaceAllL_of_not_mem {x : Char} {pat rep l : List Char} (hx : x ∈ pat)
    (hl : x ∉ l) : replaceAllL l pat rep = l :=
  replaceAllFuel_of_not_mem hx l.length l hl

/-- Deleting occurrences of a pattern introduces no new characters. -/
theorem mem_of_mem_replaceAllFuel {x : Char} {pat : List Char} :
    ∀ (fuel : Nat) (l : List Char), x ∈ replaceAllFuel pat [] fuel l → x ∈ l := by
  intro fuel
  induction fuel with
  | zero => intro l h; simpa [replaceAllFuel] using h
  | succ n ih =>
    intro l h
    cases l with
    | nil => simpa [replaceAllFuel] using h
    | cons c rest =>
      by_cases hpre : pat.isPrefixOf (c :: rest) = true
      · simp only [replaceAllFuel, hpre, if_true, List.nil_append] at h
        exact List.drop_subset _ _ (ih _ h)
      · simp only [replaceAllFuel, hpre, if_false, Bool.false_eq_true] at h
        rcases List.mem_cons.mp h with rfl | h2
        · exact List.mem_cons_self _ _
        · exact List.mem_cons_of_mem _ (ih _ h2)

/-- Deleting every occurrence of a single character removes it entirely
(this is `s.replace(c, '')`, given enough fuel). -/
theorem not_mem_replaceAllFuel_single {c : Char} :
    ∀ (fuel : Nat) (l : List Char), l.length ≤ fuel →
      c ∉ replaceAllFuel [c] [] fuel l := by
  intro fuel
  induction fuel with
  | zero =>
    intro l hl
    have hnil : l = [] := List.eq_nil_of_length_eq_zero (Nat.le_zero.mp hl)
    subst hnil
    simp [replaceAllFuel]
  | succ n ih =>
    intro l hl
    cases l with
    | nil => simp [replaceAllFuel]
    | cons a rest =>
      by_cases hac : c = a
      · subst hac
        have hpre : List.isPrefixOf [c] (c :: rest) = true := by
          simp [List.isPrefixOf]
        simp only [replaceAllFuel, hpre, if_true, List.nil_append, List.length_cons,
          List.drop_succ_cons, List.drop_zero]
        exact ih rest (Nat.le_of_succ_le_succ (by simpa using hl))
      · have hpre : List.isPrefixOf [c] (a :: rest) = false := by
          simp [List.isPrefixOf, hac]
        simp only [replaceAllFuel, hpre, if_false, Bool.false_eq_true]
        intro hmem
        rcases List.mem_cons.mp hmem with h1 | h2
        · exact hac h1
        · exact ih rest (Nat.le_of_succ_le_succ (by simpa using hl)) h2

/-- Image characterization of the ASCII lowercase map. -/
theorem pyLowerChar_cases (c : Char) :
    pyLowerChar c = c ∨ pyLowerChar c ∈ ['a','b','c','d','e','f','g','h','i','j','k','l','m',
      'n','o','p','q','r','s','t','u','v','w','x','y','z'] := by
  by_cases hA : c = 'A'
  · subst hA; right; decide
  by_cases hB : c = 'B'
  · subst hB; right; decide
  by_cases hC : c = 'C'
  · subst hC; right; decide
  by_cases hD : c = 'D'
  · subst hD; right; decide
  by_cases hE : c = 'E'
  · subst hE; right; decide
  by_cases hF : c = 'F'
  · subst hF; right; decide
  by_cases hG : c = 'G'
  · subst hG; right; decide
  by_cases hH : c = 'H'
  · subst hH; right; decide
  by_cases hI : c = 'I'
  · subst hI; right; decide
  by_cases hJ : c = 'J'
  · subst hJ; right; decide
  by_cases hK : c = 'K'
  · subst hK; right; decide
  by_cases hL : c = 'L'
  · subst hL; right; decide
  by_cases hM : c = 'M'
  · subst hM; right; decide
  by_cases hN : c = 'N'
  · subst hN; right; decide
  by_cases hO : c = 'O'
  · subst hO; right; decide
  by_cases hP : c = 'P'
  · subst hP; right; decide
  by_cases hQ : c = 'Q'
  · subst hQ; right; decide
  by_cases hR : c = 'R'
  · subst hR; right; decide
  by_cases hS : c = 'S'
  · subst hS; right; decide
  by_cases hT : c = 'T'
  · subst hT; right; decide
  by_cases hU : c = 'U'
  · subst hU; right; decide
  by_cases hV : c = 'V'
  · subst hV; right; decide
  by_cases hW : c = 'W'
  · subst hW; right; decide
  by_cases hX : c = 'X'
  · subst hX; right; decide
  by_cases hY : c = 'Y'
  · subst hY; right; decide
  by_cases hZ : c = 'Z'
  · subst hZ; right; decide
  left
  simp only [pyLowerChar, if_neg hA, if_neg hB, if_neg hC, if_neg hD, if_neg hE, if_neg hF,
    if_neg hG, if_neg hH, if_neg hI, if_neg hJ, if_neg hK, if_neg hL, if_neg hM, if_neg hN,
    if_neg hO, if_neg hP, if_neg hQ, if_neg hR, if_neg hS, if_neg hT, if_neg hU, if_neg hV,
    if_neg hW, if_neg hX, if_neg hY, if_neg hZ]

/-- Lowercase letters are fixed points of the lowercase map. -/
theorem pyLowerChar_fix (x : Char)
    (hx : x ∈ ['a','b','c','d','e','f','g','h','i','j','k','l','m',
      'n','o','p','q','r','s','t','u','v','w','x','y','z']) : pyLowerChar x = x := by
  fin_cases hx <;> rfl

/-- The lowercase map is idempotent. -/
theorem pyLowerChar_idem (c : Char) : pyLowerChar (pyLowerChar c) = pyLowerChar c := by
  rcases pyLowerChar_cases c with h | h
  · rw [h]
    exact h
  · exact pyLowerChar_fix _ h

/-- The `v<digit>` collapse introduces no new characters. -/
theorem mem_of_mem_subVDigit {x : Char} : ∀ l, x ∈ subVDigit l → x ∈ l := by
  intro l
  induction l using subVDigit.induct with
  | case1 => simp [subVDigit]
  | case2 c => simp [subVDigit]
  | case3 c d rest hcond ih =>
    intro h
    rw [subVDigit, if_pos hcond] at h
    rcases List.mem_cons.mp h with rfl | h2
    · simp
    · simp [ih h2]
  | case4 c d rest hcond ih =>
    intro h
    rw [subVDigit, if_neg hcond] at h
    rcases List.mem_cons.mp h with rfl | h2
    · simp
    · simp [ih h2]

/-- When no `v<digit>` occurrence remains, the collapse is the identity. -/
theorem subVDigit_of_noVDigit : ∀ l, noVDigit l = true → subVDigit l = l := by
  intro l
  induction l using subVDigit.induct with
  | case1 => simp [subVDigit]
  | case2 c => simp [subVDigit]
  | case3 c d rest hcond ih =>
    intro h
    rw [noVDigit] at h
    simp only [Bool.and_eq_true, Bool.not_eq_true'] at h
    simp [hcond] at h
  | case4 c d rest hcond ih =>
    intro h
    rw [noVDigit] at h
    simp only [Bool.and_eq_true] at h
    rw [subVDigit, if_neg hcond]
    congr 1
    exact ih h.2

/-- A map whose function fixes every element is the identity. -/
theorem map_eq_self_of_fix {f : Char → Char} {l : List Char}
    (h : ∀ x ∈ l, f x = x) : l.map f = l := by
  induction l with
  | nil => rfl
  | cons a t ih =>
    simp [h a (List.mem_cons_self a t), ih (fun x hx => h x (List.mem_cons_of_mem a hx))]

/-- A list without underscores or dashes, made of lowercase-fixed
characters and with no `v<digit>` occurrence, is a fixed point of the
normalizer. -/
theorem normalizeNameList_fix {N : List Char}
    (h1 : '_' ∉ N) (h2 : '-' ∉ N) (h3 : ∀ x ∈ N, pyLowerChar x = x)
    (h4 : noVDigit N = true) : normalizeNameList N = N := by
  have r1 : replaceAllL N "Standard_".toList [] = N :=
    replaceAllL_of_not_mem (by decide) h1
  have r2 : replaceAllL N "linux-".toList [] = N :=
    replaceAllL_of_not_mem (by decide) h2
  have r3 : replaceAllL N "-standard".toList [] = N :=
    replaceAllL_of_not_mem (by decide) h2
  have r4 : pyLower N = N := map_eq_self_of_fix h3
  have r5 : subVDigit N = N := subVDigit_of_noVDigit N h4
  have r6 : replaceAllL N "_".toList [] = N :=
    replaceAllL_of_not_mem (by decide) h1
  have r7 : replaceAllL N "-".toList [] = N :=
    replaceAllL_of_not_mem (by decide) h2
  show replaceAllL (replaceAllL (subVDigit (pyLower (replaceAllL (replaceAllL
      (replaceAllL N "Standard_".toList []) "linux-".toList []) "-standard".toList [])))
      "_".toList []) "-".toList [] = N
  rw [r1, r2, r3, r4, r5, r6, r7]

/-- The normalizer's output has no underscores or dashes and consists of
lowercase-fixed characters. -/
theorem normalizeNameList_props (l : List Char) :
    '_' ∉ normalizeNameList l ∧ '-' ∉ normalizeNameList l ∧
    ∀ x ∈ normalizeNameList l, pyLowerChar x = x := by
  refine ⟨?_, ?_, ?_⟩
  · intro hmem
    have hf := mem_of_mem_replaceAllFuel _ _ hmem
    exact not_mem_replaceAllFuel_single _ _ (le_refl _) hf
  · exact not_mem_replaceAllFuel_single _ _ (le_refl _)
  · intro x hx
    have hf := mem_of_mem_replaceAllFuel _ _ hx
    have he := mem_of_mem_replaceAllFuel _ _ hf
    have hd := mem_of_mem_subVDigit _ he
    obtain ⟨y, _, rfl⟩ := List.mem_map.mp hd
    exact pyLowerChar_idem y

/-- A digit is not one of the parser's special characters. -/
theorem isDigit_ne {c : Char} (h : c.isDigit = true) :
    c ≠ '/' ∧ c ≠ 'x' ∧ c ≠ 'X' ∧ c ≠ '(' ∧ c ≠ '\n' := by
  refine ⟨?_, ?_, ?_, ?_, ?_⟩ <;> (intro he; subst he; simp at h)

/-- A digit is not whitespace. -/
theorem isDigit_not_space {c : Char} (h : c.isDigit = true) : isPySpace c = false := by
  rcases hc : isPySpace c with _ | _
  · rfl
  · exfalso
    unfold isPySpace at hc
    simp only [Bool.or_eq_true, decide_eq_true_eq] at hc
    rcases hc with ((((rfl | rfl) | rfl) | rfl) | rfl) | rfl <;> simp at h

/-- Digit strings contain only digits. -/
theorem mem_isDigits {ds : List Char} (h : isDigits ds = true) :
    ∀ c ∈ ds, c.isDigit = true := by
  unfold isDigits at h
  simp only [Bool.and_eq_true, List.all_eq_true, decide_eq_true_eq] at h
  exact h.2

/-- Digit strings are nonempty. -/
theorem ne_nil_of_isDigits {ds : List Char} (h : isDigits ds = true) : ds ≠ [] := by
  unfold isDigits at h
  simp only [Bool.and_eq_true, Bool.not_eq_true', List.isEmpty_eq_false_iff_exists_mem] at h
  rcases h.1 with ⟨x, hx⟩
  intro hnil
  subst hnil
  simp at hx

/-- `takeWhile` over an append stops at the first failing element. -/
theorem takeWhile_append_eq {p : Char → Bool} :
    ∀ (l₁ : List Char) (x : Char) (l₂ : List Char), (∀ c ∈ l₁, p c = true) → p x = false →
      (l₁ ++ x :: l₂).takeWhile p = l₁ := by
  intro l₁
  induction l₁ with
  | nil =>
    intro x l₂ _ hx
    rw [List.nil_append]
    exact List.takeWhile_cons_of_neg (by simp [hx])
  | cons a t ih =>
    intro x l₂ hall hx
    have ha := hall a (List.mem_cons_self a t)
    rw [List.cons_append, List.takeWhile_cons_of_pos ha,
      ih x l₂ (fun c hc => hall c (List.mem_cons_of_mem a hc)) hx]

/-- `takeWhile` is empty when the head fails the predicate. -/
theorem takeWhile_eq_nil_of_head {p : Char → Bool} {l : List Char}
    (h : ∀ c, l.head? = some c → p c = false) : l.takeWhile p = [] := by
  cases l with
  | nil => rfl
  | cons a t =>
    have := h a rfl
    simp [List.takeWhile, this]

/-- The head of a `dropWhile` result is an element of the original list. -/
theorem head_dropWhile_mem {p : Char → Bool} :
    ∀ (l : List Char) (y : Char) (ys : List Char), l.dropWhile p = y :: ys → y ∈ l := by
  intro l
  induction l with
  | nil => intro y ys h; simp [List.dropWhile] at h
  | cons a t ih =>
    intro y ys h
    rcases hp : p a with _ | _
    · rw [List.dropWhile_cons_of_neg (by simp [hp])] at h
      cases h
      exact List.mem_cons_self _ _
    · rw [List.dropWhile_cons_of_pos hp] at h
      exact List.mem_cons_of_mem _ (ih y ys h)

/-- `dropWhile` over an append when the left part contains a failing
element: it stops inside the left part. -/
theorem dropWhile_append_of_exists {p : Char → Bool} :
    ∀ (l r : List Char), (∃ x ∈ l, p x = false) →
      (l ++ r).dropWhile p = l.dropWhile p ++ r ∧ l.dropWhile p ≠ [] := by
  intro l
  induction l with
  | nil => intro r h; simp at h
  | cons a t ih =>
    intro r h
    rcases hp : p a with _ | _
    · constructor
      · simp only [List.cons_append]
        rw [List.dropWhile_cons_of_neg (by simp [hp]),
          List.dropWhile_cons_of_neg (by simp [hp])]
        rfl
      · rw [List.dropWhile_cons_of_neg (by simp [hp])]
        simp
    · obtain ⟨x, hx, hxp⟩ := h
      have hxt : x ∈ t := by
        rcases List.mem_cons.mp hx with rfl | ht
        · rw [hp] at hxp; cases hxp
        · exact ht
      obtain ⟨ih1, ih2⟩ := ih r ⟨x, hxt, hxp⟩
      constructor
      · simp only [List.cons_append]
        rw [List.dropWhile_cons_of_pos hp, List.dropWhile_cons_of_pos hp, ih1]
      · rw [List.dropWhile_cons_of_pos hp]
        exact ih2

/-- `dropWhile` is the identity only when the head already fails. -/
theorem head_not_of_dropWhile_eq {p : Char → Bool} {l : List Char}
    (h : l.dropWhile p = l) : ∀ c, l.head? = some c → p c = false := by
  intro c hc
  cases l with
  | nil => simp at hc
  | cons a t =>
    cases hc
    rcases hp : p c with _ | _
    · rfl
    · exfalso
      rw [List.dropWhile_cons_of_pos hp] at h
      have := (List.dropWhile_suffix p (l := t)).length_le
      rw [h] at this
      simp at this

/-- A strip-fixed nonempty list starts and ends with non-whitespace. -/
theorem pyStripList_head_getLast {l : List Char} (h : pyStripList l = l) :
    (∀ c, l.head? = some c → isPySpace c = false) ∧
    (∀ c, l.getLast? = some c → isPySpace c = false) := by
  have hlen1 : ((l.dropWhile isPySpace).reverse.dropWhile isPySpace).length ≤
      (l.dropWhile isPySpace).length := by
    calc ((l.dropWhile isPySpace).reverse.dropWhile isPySpace).length
        ≤ (l.dropWhile isPySpace).reverse.length :=
          (List.dropWhile_suffix isPySpace).length_le
      _ = (l.dropWhile isPySpace).length := List.length_reverse _
  have hlen2 : (l.dropWhile isPySpace).length ≤ l.length :=
    (List.dropWhile_suffix isPySpace).length_le
  have hlen0 : (pyStripList l).length = l.length := by rw [h]
  have hlenStr : (pyStripList l).length =
      ((l.dropWhile isPySpace).reverse.dropWhile isPySpace).length := by
    unfold pyStripList
    rw [List.length_reverse]
  have heq1 : (l.dropWhile isPySpace).length = l.length := by omega
  have hfix1 : l.dropWhile isPySpace = l :=
    (List.dropWhile_suffix isPySpace).eq_of_length heq1
  have hfix2 : l.reverse.dropWhile isPySpace = l.reverse := by
    have hrev : (l.reverse.dropWhile isPySpace).length = l.reverse.length := by
      have : (pyStripList l).length = (l.reverse.dropWhile isPySpace).length := by
        unfold pyStripList
        rw [hfix1, List.length_reverse]
      rw [hlen0] at this
      rw [List.length_reverse]
      omega
    exact (List.dropWhile_suffix isPySpace).eq_of_length hrev
  constructor
  · exact head_not_of_dropWhile_eq hfix1
  · intro c hc
    refine head_not_of_dropWhile_eq hfix2 c ?_
    rw [List.head?_reverse]
    exact hc

/-- A list of non-whitespace characters is strip-fixed. -/
theorem pyStripList_eq_self_of_no_space {l : List Char}
    (h : ∀ c ∈ l, isPySpace c = false) : pyStripList l = l := by
  have h1 : l.dropWhile isPySpace = l := by
    cases l with
    | nil => rfl
    | cons a t => exact List.dropWhile_cons_of_neg (by simp [h a (List.mem_cons_self a t)])
  have h2 : l.reverse.dropWhile isPySpace = l.reverse := by
    cases hrev : l.reverse with
    | nil => rfl
    | cons a t =>
      refine List.dropWhile_cons_of_neg ?_
      have ha : a ∈ l := by
        have : a ∈ l.reverse := by rw [hrev]; exact List.mem_cons_self _ _
        simpa using this
      simp [h a ha]
  unfold pyStripList
  rw [h1, h2, List.reverse_reverse]

/-- The optional-parenthetical tail never matches a nonempty remainder
without an opening parenthesis. -/
theorem tailParenOk_eq_false {q : List Char} (hne : q ≠ []) (hnp : '(' ∉ q) :
    tailParenOk q = false := by
  have hq : q.isEmpty = false := by
    cases q with
    | nil => exact absurd rfl hne
    | cons a t => rfl
  unfold tailParenOk
  rw [hq]
  rcases hd : q.dropWhile isPySpace with _ | ⟨y, ys⟩
  · simp [hd]
  · have hy : y ∈ q := head_dropWhile_mem q y ys hd
    have hyne : y ≠ '(' := fun he => hnp (he ▸ hy)
    simp [hd, hyne]

/-- The optional-parenthetical tail matches one space, a parenthesized
newline-free annotation, and nothing after. -/
theorem tailParenOk_paren {annot : List Char} (h : ∀ c ∈ annot, c ≠ '\n') :
    tailParenOk (' ' :: '(' :: (annot ++ [')'])) = true := by
  unfold tailParenOk
  have hsp : isPySpace ' ' = true := by decide
  have hnp : isPySpace '(' = false := by decide
  have h1 : List.takeWhile isPySpace (' ' :: ('(' :: (annot ++ [')']))) =
      ' ' :: List.takeWhile isPySpace ('(' :: (annot ++ [')'])) :=
    List.takeWhile_cons_of_pos hsp
  have h2 : List.dropWhile isPySpace (' ' :: ('(' :: (annot ++ [')']))) =
      '(' :: (annot ++ [')']) := by
    rw [List.dropWhile_cons_of_pos hsp]
    exact List.dropWhile_cons_of_neg (by simp [hnp])
  rw [h1, h2]
  have h3 : (annot ++ [')']).getLast? = some ')' := List.getLast?_concat annot
  have h4 : (annot ++ [')']).dropLast = annot := List.dropLast_concat
  simp [h3, h4, List.all_eq_true]
  intro x hx
  simpa using h x hx

/-- The tail matcher applied after a suffix of the name: a nonempty,
parenthesis-free fragment with a non-whitespace element blocks the match,
whatever follows. -/
theorem tailParenOk_block {l r : List Char} (hnp : '(' ∉ l)
    (hex : ∃ x ∈ l, isPySpace x = false) : tailParenOk (l ++ r) = false := by
  obtain ⟨hdw, hne⟩ := dropWhile_append_of_exists l r hex
  have hlr : (l ++ r).isEmpty = false := by
    obtain ⟨x, hx, _⟩ := hex
    cases l with
    | nil => simp at hx
    | cons a t => rfl
  unfold tailParenOk
  rw [hlr, hdw]
  rcases hld : l.dropWhile isPySpace with _ | ⟨y, ys⟩
  · exact absurd hld hne
  · have hy : y ∈ l := head_dropWhile_mem l y ys hld
    have hyne : y ≠ '(' := fun he => hnp (he ▸ hy)
    simp [hyne]

/-- Unfolding equation of the lazy-group search. -/
theorem findLazyGroup_cons (acc : List Char) (c : Char) (rest : List Char) :
    findLazyGroup acc (c :: rest) =
      if c = '\n' then none
      else if tailParenOk rest then some (acc ++ [c]) else findLazyGroup (acc ++ [c]) rest := by
  rfl

/-- The lazy group consumes a parenthesis-free, newline-free remainder
whole. -/
theorem findLazyGroup_all {l : List Char} :
    ∀ acc, l ≠ [] → (∀ c ∈ l, c ≠ '(' ∧ c ≠ '\n') →
      findLazyGroup acc l = some (acc ++ l) := by
  induction l with
  | nil => intro acc h _; exact absurd rfl h
  | cons c rest ih =>
    intro acc _ hall
    have hc := hall c (List.mem_cons_self c rest)
    rw [findLazyGroup_cons, if_neg hc.2]
    cases rest with
    | nil =>
      rw [if_pos (show tailParenOk [] = true from rfl)]
    | cons d t =>
      have hrest : tailParenOk (d :: t) = false := by
        refine tailParenOk_eq_false (by simp) ?_
        intro hmem
        exact (hall '(' (List.mem_cons_of_mem c hmem)).1 rfl
      rw [hrest]
      simp only [Bool.false_eq_true, if_false]
      rw [ih (acc ++ [c]) (by simp) (fun x hx => hall x (List.mem_cons_of_mem c hx))]
      simp

/-- The lazy group stops exactly at the parenthesized annotation: for a
nonempty, parenthesis-free, newline-free name that does not end in
whitespace, followed by a space and a parenthesized newline-free
annotation, the captured group is the name. -/
theorem findLazyGroup_paren {name : List Char} :
    ∀ acc annot, name ≠ [] → (∀ c ∈ name, c ≠ '(' ∧ c ≠ '\n') →
      (∀ c, name.getLast? = some c → isPySpace c = false) →
      (∀ c ∈ annot, c ≠ '\n') →
      findLazyGroup acc (name ++ ' ' :: '(' :: (annot ++ [')'])) = some (acc ++ name) := by
  induction name with
  | nil => intro acc annot h _ _ _; exact absurd rfl h
  | cons c rest ih =>
    intro acc annot _ hall hlast hannot
    have hc := hall c (List.mem_cons_self c rest)
    rw [List.cons_append, findLazyGroup_cons, if_neg hc.2]
    cases rest with
    | nil =>
      rw [List.nil_append, tailParenOk_paren hannot]
      simp
    | cons d t =>
      have hblock : tailParenOk ((d :: t) ++ ' ' :: '(' :: (annot ++ [')'])) = false := by
        refine tailParenOk_block ?_ ?_
        · intro hmem
          exact (hall '(' (List.mem_cons_of_mem c hmem)).1 rfl
        · have hlast2 : (d :: t).getLast? = some ((d :: t).getLast (by simp)) :=
            List.getLast?_eq_getLast _ _
          refine ⟨(d :: t).getLast (by simp), List.getLast_mem _, ?_⟩
          refine hlast _ ?_
          rw [List.getLast?_cons_cons]
          exact hlast2
      rw [hblock]
      simp only [Bool.false_eq_true, if_false]
      have := ih (acc ++ [c]) annot (by simp)
        (fun x hx => hall x (List.mem_cons_of_mem c hx))
        (fun x hx => hlast x (by rw [List.getLast?_cons_cons]; exact hx)) hannot
      rw [this]
      simp

/-- A pattern is a prefix of itself followed by anything. -/
theorem isPrefixOf_append_self : ∀ (pat rest : List Char),
    pat.isPrefixOf (pat ++ rest) = true := by
  intro pat
  induction pat with
  | nil => intro rest; cases rest <;> rfl
  | cons a t ih =>
    intro rest
    simp only [List.cons_append, List.isPrefixOf, beq_self_eq_true, Bool.true_and]
    exact ih rest

/-- `split(sep, 1)` finds the first occurrence: if no character of the
prefix can start the pattern, the split lands exactly at the planted
occurrence. -/
theorem splitOnceAux_plant {pat : List Char} (hne : pat ≠ []) :
    ∀ (pre post : List Char), (∀ c ∈ pre, pat.head? ≠ some c) →
      splitOnceAux pat (pre ++ pat ++ post) = some (pre, post) := by
  intro pre
  induction pre with
  | nil =>
    intro post _
    rcases pat with _ | ⟨p0, pt⟩
    · exact absurd rfl hne
    · have hform : ([] : List Char) ++ (p0 :: pt) ++ post = p0 :: (pt ++ post) := by simp
      rw [hform]
      unfold splitOnceAux
      have hpref : (p0 :: pt).isPrefixOf (p0 :: (pt ++ post)) = true := by
        have h := isPrefixOf_append_self (p0 :: pt) post
        simpa using h
      rw [hpref]
      simp only [if_true]
      have hdrop : (p0 :: (pt ++ post)).drop (p0 :: pt).length = post := by
        simp only [List.length_cons, List.drop_succ_cons]
        exact List.drop_left pt post
      rw [hdrop]
  | cons c pre2 ih =>
    intro post hhead
    have hc := hhead c (List.mem_cons_self c pre2)
    have hpre : pat.isPrefixOf (c :: (pre2 ++ pat ++ post)) = false := by
      rcases pat with _ | ⟨p0, pt⟩
      · exact absurd rfl hne
      · have hp0 : p0 ≠ c := fun he => hc (by simp [he])
        simp [List.isPrefixOf, hp0]
    have hih := ih post (fun x hx => hhead x (List.mem_cons_of_mem c hx))
    have hform : (c :: pre2) ++ pat ++ post = c :: (pre2 ++ pat ++ post) := by simp
    rw [hform]
    unfold splitOnceAux
    rw [hpre]
    simp only [Bool.false_eq_true, if_false]
    rw [hih]

/-- The regex engine on a well-formed `<digits><x|X> <name>` input captures
the digits and the whole name. -/
theorem regexMatchGpu_int {ds : List Char} {xc : Char} {name : List Char}
    (hds : isDigits ds = true) (hxc : xc = 'x' ∨ xc = 'X')
    (hname : name ≠ []) (hok : ∀ c ∈ name, c ≠ '(' ∧ c ≠ '\n')
    (hhead : ∀ c, name.head? = some c → isPySpace c = false) :
    regexMatchGpu (ds ++ xc :: ' ' :: name) = some (natOfDigits ds, name) := by
  have hdig : ∀ c ∈ ds, c.isDigit = true := mem_isDigits hds
  have hxd : xc.isDigit = false := by rcases hxc with rfl | rfl <;> rfl
  have htw : (ds ++ xc :: ' ' :: name).takeWhile (·.isDigit) = ds :=
    takeWhile_append_eq ds xc (' ' :: name) hdig hxd
  have hne : ds.isEmpty = false := by
    rcases hde : ds with _ | _
    · exact absurd hde (ne_nil_of_isDigits hds)
    · rfl
  have hcond : (xc = 'x' || xc = 'X') = true := by rcases hxc with rfl | rfl <;> rfl
  have hws : (' ' :: name).takeWhile isPySpace = [' '] := by
    rw [List.takeWhile_cons_of_pos (show isPySpace ' ' = true from rfl),
      takeWhile_eq_nil_of_head hhead]
  unfold regexMatchGpu
  dsimp only
  rw [htw, hne]
  simp only [Bool.false_eq_true, if_false]
  rw [List.drop_left]
  dsimp only
  rw [hcond]
  simp only [if_true]
  rw [hws]
  simp only [List.isEmpty_cons, Bool.false_eq_true, if_false, List.length_cons,
    List.length_nil, List.drop_succ_cons, List.drop_zero]
  rcases hnm : name with _ | ⟨n0, nt⟩
  · exact absurd hnm hname
  · dsimp only
    rw [findLazyGroup_all [] (by simp) (fun x hx => hok x (hnm ▸ hx))]
    simp

/-- The regex engine on `<digits><x|X> <name> (<annot>)`: the parenthetical
annotation is stripped and the captured group is exactly the name. -/
theorem regexMatchGpu_paren {ds : List Char} {xc : Char} {name annot : List Char}
    (hds : isDigits ds = true) (hxc : xc = 'x' ∨ xc = 'X')
    (hname : name ≠ []) (hok : ∀ c ∈ name, c ≠ '(' ∧ c ≠ '\n')
    (hhead : ∀ c, name.head? = some c → isPySpace c = false)
    (hlast : ∀ c, name.getLast? = some c → isPySpace c = false)
    (hannot : ∀ c ∈ annot, c ≠ '\n') :
    regexMatchGpu (ds ++ xc :: ' ' :: (name ++ ' ' :: '(' :: (annot ++ [')']))) =
      some (natOfDigits ds, name) := by
  have hdig : ∀ c ∈ ds, c.isDigit = true := mem_isDigits hds
  have hxd : xc.isDigit = false := by rcases hxc with rfl | rfl <;> rfl
  have htw : (ds ++ xc :: ' ' :: (name ++ ' ' :: '(' :: (annot ++ [')']))).takeWhile
      (·.isDigit) = ds :=
    takeWhile_append_eq ds xc (' ' :: (name ++ ' ' :: '(' :: (annot ++ [')']))) hdig hxd
  have hne : ds.isEmpty = false := by
    rcases hde : ds with _ | _
    · exact absurd hde (ne_nil_of_isDigits hds)
    · rfl
  have hcond : (xc = 'x' || xc = 'X') = true := by rcases hxc with rfl | rfl <;> rfl
  have hhead2 : ∀ c, (name ++ ' ' :: '(' :: (annot ++ [')'])).head? = some c →
      isPySpace c = false := by
    intro c hc
    rcases hnm : name with _ | ⟨n0, nt⟩
    · exact absurd hnm hname
    · rw [hnm, List.cons_append, List.head?_cons] at hc
      refine hhead c ?_
      rw [hnm, List.head?_cons]
      exact hc
  have hws : (' ' :: (name ++ ' ' :: '(' :: (annot ++ [')']))).takeWhile isPySpace =
      [' '] := by
    rw [List.takeWhile_cons_of_pos (show isPySpace ' ' = true from rfl),
      takeWhile_eq_nil_of_head hhead2]
  unfold regexMatchGpu
  dsimp only
  rw [htw, hne]
  simp only [Bool.false_eq_true, if_false]
  rw [List.drop_left]
  dsimp only
  rw [hcond]
  simp only [if_true]
  rw [hws]
  simp only [List.isEmpty_cons, Bool.false_eq_true, if_false, List.length_cons,
    List.length_nil, List.drop_succ_cons, List.drop_zero]
  rcases hnm : name with _ | ⟨n0, nt⟩
  · exact absurd hnm hname
  · rw [List.cons_append]
    dsimp only
    rw [show n0 :: (nt ++ ' ' :: '(' :: (annot ++ [')'])) =
      (n0 :: nt) ++ ' ' :: '(' :: (annot ++ [')']) from by simp]
    rw [findLazyGroup_paren [] annot (by simp) (fun x hx => hok x (hnm ▸ hx))
      (fun x hx => hlast x (by rw [hnm]; exact hx)) hannot]
    simp

/-- A nonempty character list does not build the empty string. -/
theorem mk_ne_empty {l : List Char} (h : l ≠ []) : String.mk l ≠ "" := by
  intro hcon
  apply h
  have hdata := congrArg String.data hcon
  simpa using hdata

/-- `parse_gpu_info` on `<digits><x|X> <name>` for a nonempty stripped name
free of `(`, newline and `/`. -/
theorem parse_gpu_info_int {ds : List Char} {xc : Char} {name : List Char}
    (hds : isDigits ds = true) (hxc : xc = 'x' ∨ xc = 'X') (hname : name ≠ [])
    (hok : ∀ c ∈ name, c ≠ '(' ∧ c ≠ '\n' ∧ c ≠ '/')
    (hstrip : pyStripList name = name) :
    parse_gpu_info (String.mk (ds ++ xc :: ' ' :: name)) =
      .ok (some ⟨String.mk name, (natOfDigits ds : ℚ)⟩) := by
  have hdig : ∀ c ∈ ds, c.isDigit = true := mem_isDigits hds
  have hne : String.mk (ds ++ xc :: ' ' :: name) ≠ "" := by
    refine mk_ne_empty ?_
    rcases hde : ds with _ | _
    · exact absurd hde (ne_nil_of_isDigits hds)
    · simp
  have hmem : '/' ∉ ds ++ xc :: ' ' :: name := by
    intro hm
    rcases List.mem_append.mp hm with h1 | h2
    · exact (isDigit_ne (hdig _ h1)).1 rfl
    · rcases List.mem_cons.mp h2 with heq | h3
      · rcases hxc with rfl | rfl <;> simp at heq
      · rcases List.mem_cons.mp h3 with heq | h4
        · simp at heq
        · exact (hok _ h4).2.2 rfl
  unfold parse_gpu_info
  rw [if_neg hne]
  rw [if_neg (show ¬('/' ∈ (String.mk (ds ++ xc :: ' ' :: name)).toList) from hmem)]
  rw [show (String.mk (ds ++ xc :: ' ' :: name)).toList = ds ++ xc :: ' ' :: name from rfl]
  rw [regexMatchGpu_int hds hxc hname (fun c hc => ⟨(hok c hc).1, (hok c hc).2.1⟩)
    (pyStripList_head_getLast hstrip).1]
  dsimp only
  rw [hstrip]

/-- `parse_gpu_info` on `<digits><x|X> <name> (<annot>)`: the trailing
parenthetical annotation is stripped. -/
theorem parse_gpu_info_paren {ds : List Char} {xc : Char} {name annot : List Char}
    (hds : isDigits ds = true) (hxc : xc = 'x' ∨ xc = 'X') (hname : name ≠ [])
    (hok : ∀ c ∈ name, c ≠ '(' ∧ c ≠ '\n' ∧ c ≠ '/')
    (hstrip : pyStripList name = name)
    (hannot : ∀ c ∈ annot, c ≠ '\n' ∧ c ≠ '/') :
    parse_gpu_info (String.mk (ds ++ xc :: ' ' :: (name ++ ' ' :: '(' :: (annot ++ [')'])))) =
      .ok (some ⟨String.mk name, (natOfDigits ds : ℚ)⟩) := by
  have hdig : ∀ c ∈ ds, c.isDigit = true := mem_isDigits hds
  have hne : String.mk (ds ++ xc :: ' ' :: (name ++ ' ' :: '(' :: (annot ++ [')']))) ≠ "" := by
    refine mk_ne_empty ?_
    rcases hde : ds with _ | _
    · exact absurd hde (ne_nil_of_isDigits hds)
    · simp
  have hmem : '/' ∉ ds ++ xc :: ' ' :: (name ++ ' ' :: '(' :: (annot ++ [')'])) := by
    intro hm
    rcases List.mem_append.mp hm with h1 | h2
    · exact (isDigit_ne (hdig _ h1)).1 rfl
    · rcases List.mem_cons.mp h2 with heq | h3
      · rcases hxc with rfl | rfl <;> simp at heq
      · rcases List.mem_cons.mp h3 with heq | h4
        · simp at heq
        · rcases List.mem_append.mp h4 with h5 | h6
          · exact (hok _ h5).2.2 rfl
          · rcases List.mem_cons.mp h6 with heq | h7
            · simp at heq
            · rcases List.mem_cons.mp h7 with heq | h8
              · simp at heq
              · rcases List.mem_append.mp h8 with h9 | h10
                · exact (hannot _ h9).2 rfl
                · simp at h10
  unfold parse_gpu_info
  rw [if_neg hne]
  rw [if_neg (show ¬('/' ∈ (String.mk (ds ++ xc :: ' ' ::
    (name ++ ' ' :: '(' :: (annot ++ [')'])))).toList) from hmem)]
  rw [show (String.mk (ds ++ xc :: ' ' :: (name ++ ' ' :: '(' :: (annot ++ [')'])))).toList =
    ds ++ xc :: ' ' :: (name ++ ' ' :: '(' :: (annot ++ [')'])) from rfl]
  rw [regexMatchGpu_paren hds hxc hname (fun c hc => ⟨(hok c hc).1, (hok c hc).2.1⟩)
    (pyStripList_head_getLast hstrip).1 (pyStripList_head_getLast hstrip).2
    (fun c hc => (hannot c hc).1)]
  dsimp only
  rw [hstrip]

/-- `parse_gpu_info` on `<int>/<int>X <name>` with a nonzero denominator:
the fraction branch evaluates the true-division value. -/
theorem parse_gpu_info_frac {a b name : List Char}
    (ha : isDigits a = true) (hb : isDigits b = true) (hbnz : natOfDigits b ≠ 0)
    (hstrip : pyStripList name = name) :
    parse_gpu_info (String.mk (a ++ '/' :: (b ++ 'X' :: ' ' :: name))) =
      .ok (some ⟨String.mk name, (natOfDigits a : ℚ) / (natOfDigits b : ℚ)⟩) := by
  have hadig : ∀ c ∈ a, c.isDigit = true := mem_isDigits ha
  have hbdig : ∀ c ∈ b, c.isDigit = true := mem_isDigits hb
  have hne : String.mk (a ++ '/' :: (b ++ 'X' :: ' ' :: name)) ≠ "" := by
    refine mk_ne_empty ?_
    rcases hde : a with _ | _
    · exact absurd hde (ne_nil_of_isDigits ha)
    · simp
  have hmem : '/' ∈ a ++ '/' :: (b ++ 'X' :: ' ' :: name) :=
    List.mem_append.mpr (Or.inr (List.mem_cons_self _ _))
  unfold parse_gpu_info
  rw [if_neg hne]
  rw [if_pos (show '/' ∈ (String.mk (a ++ '/' :: (b ++ 'X' :: ' ' :: name))).toList from hmem)]
  rw [show (String.mk (a ++ '/' :: (b ++ 'X' :: ' ' :: name))).toList =
    a ++ '/' :: (b ++ 'X' :: ' ' :: name) from rfl]
  have hplant : splitOnceAux "X ".toList (a ++ '/' :: (b ++ 'X' :: ' ' :: name)) =
      some (a ++ '/' :: b, name) := by
    have hshape : a ++ '/' :: (b ++ 'X' :: ' ' :: name) =
        (a ++ '/' :: b) ++ "X ".toList ++ name := by
      simp
    rw [hshape]
    refine splitOnceAux_plant (by decide) (a ++ '/' :: b) name ?_
    intro c hc heq
    have hcX : c = 'X' := by
      have : some 'X' = some c := heq
      exact (Option.some.inj this).symm
    subst hcX
    rcases List.mem_append.mp hc with h1 | h2
    · exact (isDigit_ne (hadig _ h1)).2.2.1 rfl
    · rcases List.mem_cons.mp h2 with heq2 | h3
      · simp at heq2
      · exact (isDigit_ne (hbdig _ h3)).2.2.1 rfl
  rw [hplant]
  dsimp only
  have hfracmem : ∀ c ∈ a ++ '/' :: b, isPySpace c = false := by
    intro c hc
    rcases List.mem_append.mp hc with h1 | h2
    · exact isDigit_not_space (hadig _ h1)
    · rcases List.mem_cons.mp h2 with rfl | h3
      · rfl
      · exact isDigit_not_space (hbdig _ h3)
  have hstripfrac : pyStripList (a ++ '/' :: b) = a ++ '/' :: b :=
    pyStripList_eq_self_of_no_space hfracmem
  have hnotdig : isDigits (a ++ '/' :: b) = false := by
    unfold isDigits
    have hm : '/' ∈ a ++ '/' :: b := List.mem_append.mpr (Or.inr (List.mem_cons_self _ _))
    have : (a ++ '/' :: b).all (·.isDigit) = false := by
      rw [List.all_eq_false]
      exact ⟨'/', hm, by simp⟩
    simp [this]
  have hsplitfrac : splitOnceAux "/".toList (a ++ '/' :: b) = some (a, b) := by
    have hshape : a ++ '/' :: b = a ++ "/".toList ++ b := by simp
    rw [hshape]
    refine splitOnceAux_plant (by decide) a b ?_
    intro c hc heq
    have hcs : c = '/' := by
      have : some '/' = some c := heq
      exact (Option.some.inj this).symm
    subst hcs
    exact (isDigit_ne (hadig _ hc)).1 rfl
  have heval : pyEvalFloat (a ++ '/' :: b) =
      .val ((natOfDigits a : ℚ) / (natOfDigits b : ℚ)) := by
    unfold pyEvalFloat
    rw [hstripfrac]
    dsimp only
    rw [hnotdig]
    simp only [Bool.false_eq_true, if_false]
    rw [hsplitfrac]
    dsimp only
    rw [ha, hb]
    simp only [Bool.and_self, if_true]
    rw [if_neg hbnz]
  rw [heval]
  dsimp only
  rw [hstrip]

/-- `parse_gpu_info` cannot raise on a slash-free input: the regex branch
always returns a value or `None`. -/
theorem parse_gpu_info_no_raise (s : String) (h : '/' ∉ s.toList) :
    ∃ r, parse_gpu_info s = .ok r := by
  unfold parse_gpu_info
  by_cases hs : s = ""
  · exact ⟨none, by rw [if_pos hs]⟩
  · rw [if_neg hs, if_neg h]
    rcases hm : regexMatchGpu s.toList with _ | ⟨n, g⟩
    · exact ⟨none, rfl⟩
    · exact ⟨some ⟨String.mk (pyStripList g), (n : ℚ)⟩, rfl⟩

/-! ## Claims -/

/-- C1 (amended): transport failures are caught at the adapter boundary and
yield an empty sequence — proved here for the Tencent adapter and for
either fetch of the Azure adapter; but the original claim is false in
general, because some parse/missing-field errors escape the boundary (see
`tencent_gpudesc_error_escapes`). -/
theorem adapters_swallow_transport_errors (region : String) :
    tencent_get_standardized_gpu_instances region TcFetch.transportError = .ok [] ∧
    (∀ detailsFetch,
      azure_get_standardized_gpu_instances region Fetched.transportError detailsFetch = .ok []) ∧
    (∀ pricingFetch,
      azure_get_standardized_gpu_instances region pricingFetch Fetched.transportError = .ok []) := by
  refine ⟨rfl, ?_, ?_⟩
  · intro detailsFetch
    rfl
  · intro pricingFetch
    cases pricingFetch with
    | transportError => rfl
    | ok items =>
      simp [azure_get_standardized_gpu_instances, azure_get_gpu_instances,
        azure_get_vm_pricing_data]

/-- C1 counterexample: a Tencent quota entry whose `Externals.GPUDesc` lacks
the `" * "` separator makes `get_standardized_gpu_instances` raise
`IndexError` past the adapter boundary (the handler catches only
`RequestException`), refuting "never raises". -/
theorem tencent_gpudesc_error_escapes :
    tencent_get_standardized_gpu_instances "na-siliconvalley"
      (TcFetch.response (some [⟨some "GN10X.2XLARGE40", some 8, some 40, some 1,
        some 1, some 10, some "V100"⟩])) = .error PyExc.indexError := by
  rfl

/-- C2 (amended): a price-lookup miss is handled asymmetrically. The
Alibaba adapter keeps every instance and writes the 0.0 sentinel when no
pricing key matches; the Azure adapter only ever emits rows whose on-demand
price is strictly positive — an instance whose lookup misses (or returns
0.0) is dropped, not emitted with 0.0 (see `azure_drops_unpriced_instance`). -/
theorem price_miss_handling :
    (∀ (gis : List AliRow) (region : String) (pricing : List (String × AliPriceInfo)),
        (∀ pr ∈ pricing, ∀ t, aliMatchKey pr.1 region t = false) →
        ali_get_prices gis region pricing = gis.map (fun r => (r, (0 : ℚ)))) ∧
    (∀ (region : String) (pf : Fetched (List AzPriceItem))
        (df : Fetched (List (String × AzDetails))) (rows : List AzRow),
        azure_get_gpu_instances region pf df = .ok rows → ∀ r ∈ rows, 0 < r.onDemand) := by
  constructor
  · intro gis region pricing h
    unfold ali_get_prices
    apply List.map_congr_left
    intro r _
    rw [aliLookupPrice_of_no_match region r.instanceType pricing h]
  · intro region pf df rows h r hr
    unfold azure_get_gpu_instances at h
    dsimp only at h
    split at h
    · cases h
      simp at hr
    · exact azFoldDetails_pos _ _ _ rows h r hr

/-- Witness for `price_miss_handling` at concrete inputs: an Alibaba
instance with a non-matching pricing table keeps the row with price 0, and
the Azure sample run only emits positively priced rows. -/
theorem price_miss_handling_witness :
    ali_get_prices [aliSampleRow] "us-west-1"
        [("cn-hangzhou::ecs.g6.large::vpc::linux", ⟨none⟩)] = [(aliSampleRow, 0)] ∧
    ∀ r ∈ [azSampleOut], 0 < r.onDemand := by
  constructor
  · have h := price_miss_handling.1 [aliSampleRow] "us-west-1"
      [("cn-hangzhou::ecs.g6.large::vpc::linux", ⟨none⟩)]
      (by
        intro pr hpr t
        simp only [List.mem_singleton] at hpr
        subst hpr
        rfl)
    simpa using h
  · exact price_miss_handling.2 "westus2" (.ok azSamplePriceItems) (.ok azSampleDetails)
      [azSampleOut] (by rfl)

/-- C2 counterexample: an Azure details entry with a parsable GPU
descriptor whose pricing lookup finds no match produces no row at all — the
instance is dropped instead of being emitted with
`on_demand_price_per_hr = 0.0` as the claim states. -/
theorem azure_drops_unpriced_instance :
    azure_get_gpu_instances "westus2" (.ok azNoMatchPriceItems) (.ok azSampleDetails) =
      .ok [] := by
  rfl

/-- C4: the merge concatenates without deduplication — the merged row count
is exactly the sum of the adapters' row counts, and is invariant under
permuting the adapters. -/
theorem merge_rowcount (outs : List (List MRow)) :
    (fetch_prices (outs.map FetchOutcome.fetched)).length = (outs.map List.length).sum ∧
    ∀ outs2 : List (List MRow), outs.Perm outs2 →
      (fetch_prices (outs.map FetchOutcome.fetched)).length =
        (fetch_prices (outs2.map FetchOutcome.fetched)).length := by
  constructor
  · rw [fetch_prices_length, collectOutcomes_fetched_length]
  · intro outs2 hp
    rw [fetch_prices_length, collectOutcomes_fetched_length,
      fetch_prices_length, collectOutcomes_fetched_length]
    exact List.Perm.sum_eq (hp.map List.length)

/-- Witness for `merge_rowcount`: two adapters, one row total, merged in
both orders. -/
theorem merge_rowcount_witness :
    (fetch_prices ([[sampleRow], []].map FetchOutcome.fetched)).length =
      ([[sampleRow], []].map List.length).sum ∧
    (fetch_prices ([[sampleRow], []].map FetchOutcome.fetched)).length =
      (fetch_prices ([[], [sampleRow]].map FetchOutcome.fetched)).length :=
  ⟨(merge_rowcount [[sampleRow], []]).1,
   (merge_rowcount [[sampleRow], []]).2 [[], [sampleRow]]
     (List.Perm.swap ([] : List MRow) [sampleRow] [])⟩

/-- C5: when adapter A returns two rows, adapter B raises and adapter C
returns no rows, the merged table has exactly A's two rows and every row
still carries A's provider name. -/
theorem merge_partial_failure (asRows : List MRow) (p : String)
    (hlen : asRows.length = 2)
    (hprov : ∀ r ∈ asRows, r.lookup "Provider" = some (CellVal.str p)) :
    (fetch_prices [FetchOutcome.fetched asRows, FetchOutcome.raised,
        FetchOutcome.fetched []]).length = 2 ∧
    ∀ r ∈ fetch_prices [FetchOutcome.fetched asRows, FetchOutcome.raised,
        FetchOutcome.fetched []],
      r.lookup "Provider" = some (CellVal.str p) := by
  have hne : asRows.isEmpty = false := by
    cases asRows with
    | nil => simp at hlen
    | cons a t => rfl
  have hcollect : collectOutcomes [FetchOutcome.fetched asRows, FetchOutcome.raised,
      FetchOutcome.fetched []] = asRows := by
    simp [collectOutcomes, hne]
  have hfp : fetch_prices [FetchOutcome.fetched asRows, FetchOutcome.raised,
      FetchOutcome.fetched []] = asRows.map ensureColumns := by
    unfold fetch_prices
    rw [hcollect]
    simp [hne]
  constructor
  · rw [hfp, List.length_map, hlen]
  · intro r hr
    rw [hfp] at hr
    obtain ⟨a, ha, rfl⟩ := List.mem_map.mp hr
    have hpa := hprov a ha
    simp [ensureColumns, requiredColumns, List.lookup, hpa]

/-- Witness for `merge_partial_failure` at two concrete rows. -/
theorem merge_partial_failure_witness :
    (fetch_prices [FetchOutcome.fetched [sampleRow, sampleRow], FetchOutcome.raised,
        FetchOutcome.fetched []]).length = 2 ∧
    ∀ r ∈ fetch_prices [FetchOutcome.fetched [sampleRow, sampleRow], FetchOutcome.raised,
        FetchOutcome.fetched []],
      r.lookup "Provider" = some (CellVal.str "AWS") :=
  merge_partial_failure [sampleRow, sampleRow] "AWS" (by decide) (by decide)

/-- C6 (amended): every merged row carries exactly the nine canonical
columns, but a column missing from a row is completed with null (`None`),
not with a 0.0/empty-string default; only the three numerically formatted
columns are coerced null→0.0 by `main`, and rows whose nine fields are all
present and non-null (as all five adapters produce them) stay non-null
throughout. -/
theorem merged_row_fields (outcomes : List FetchOutcome) :
    (∀ r ∈ fetch_prices outcomes, r.map Prod.fst = requiredColumns) ∧
    (∀ r ∈ (fetch_prices outcomes).map formatRow, ∀ p ∈ r,
      p.1 ∈ numericColumns → ∃ q, p.2 = CellVal.num q) ∧
    ((∀ row ∈ collectOutcomes outcomes, ∀ c ∈ requiredColumns,
        (row.lookup c).getD CellVal.none ≠ CellVal.none) →
      ∀ r ∈ (fetch_prices outcomes).map formatRow, ∀ p ∈ r, p.2 ≠ CellVal.none) := by
  refine ⟨?_, ?_, ?_⟩
  · intro r hr
    obtain ⟨a, _, rfl⟩ := mem_fetch_prices hr
    simp only [ensureColumns, List.map_map]
    have hcomp : (Prod.fst ∘ fun c : String => (c, (List.lookup c a).getD CellVal.none)) = id := rfl
    rw [hcomp, List.map_id]
  · intro r hr p hp _
    obtain ⟨r0, _, rfl⟩ := List.mem_map.mp hr
    obtain ⟨p0, hp0, rfl⟩ := List.mem_map.mp hp
    by_cases hc : p0.1 ∈ numericColumns
    · simp only [formatRow] at *
      rw [if_pos hc]
      exact ⟨coerceNumeric p0.2, rfl⟩
    · rename_i hmem
      rw [if_neg hc] at hmem
      exact absurd hmem hc
  · intro hfull r hr p hp
    obtain ⟨r0, hr0, rfl⟩ := List.mem_map.mp hr
    obtain ⟨a, ha, rfl⟩ := mem_fetch_prices hr0
    obtain ⟨p0, hp0, rfl⟩ := List.mem_map.mp hp
    by_cases hc : p0.1 ∈ numericColumns
    · rw [if_pos hc]
      simp
    · rw [if_neg hc]
      obtain ⟨c, hcmem, rfl⟩ := List.mem_map.mp hp0
      exact hfull a ha c hcmem

/-- Witness for `merged_row_fields` with a fully populated row. -/
theorem merged_row_fields_witness :
    (∀ r ∈ fetch_prices [FetchOutcome.fetched [fullSampleRow]],
      r.map Prod.fst = requiredColumns) ∧
    ∀ r ∈ (fetch_prices [FetchOutcome.fetched [fullSampleRow]]).map formatRow,
      ∀ p ∈ r, p.2 ≠ CellVal.none :=
  ⟨(merged_row_fields [FetchOutcome.fetched [fullSampleRow]]).1,
   (merged_row_fields [FetchOutcome.fetched [fullSampleRow]]).2.2 (by decide)⟩

/-- C6 counterexample: a row that lacks the `GPU Type` column is completed
with null and stays null after `main`'s numeric formatting — it is never
coerced to an empty-string default, refuting "present and non-null ...
coerced to a 0.0/empty-string default". -/
theorem merged_missing_column_stays_null :
    (fetch_prices [FetchOutcome.fetched [[("Provider", CellVal.str "AWS")]]]).map formatRow =
      [[("Provider", CellVal.str "AWS"), ("Region", CellVal.none),
        ("Instance Type", CellVal.none), ("vCPUs", CellVal.none),
        ("Memory (GB)", CellVal.num 0), ("GPU Type", CellVal.none),
        ("GPU Count", CellVal.none), ("On-Demand Price ($/hr)", CellVal.num 0),
        ("Spot Price ($/hr)", CellVal.num 0)]] := by
  decide

/-- C7: the retry loop of `get_on_demand_price` is NOT bounded on every
response sequence — an upstream that keeps answering with an empty
`PriceList` keeps the loop running after any number of iterations (first
conjunct: no prefix of the constant empty-list stream makes it return),
while the path the spec describes — a parsed price of exactly 0.0 — does
return 0.0 after the initial attempt plus 3 retries (second conjunct). -/
theorem aws_price_retry_loop :
    (∀ (n retries : Nat),
      get_on_demand_price (List.replicate n AwsPriceResp.emptyList) retries = none) ∧
    get_on_demand_price (List.replicate 4 (AwsPriceResp.parsed 0)) 0 = some 0 := by
  constructor
  · intro n
    induction n with
    | zero => intro retries; rfl
    | succ k ih =>
      intro retries
      simpa [List.replicate_succ, get_on_demand_price] using ih retries
  · decide

/-- C8 (amended): the GPU filters test presence indicators, not the emitted
count. The Alibaba adapter emits the same `GPUAmount` it filters on, so its
GPU counts are strictly positive; the Tencent adapter only admits instances
whose `Gpu` field is positive, but emits the separate `GpuCount` field,
which defaults to 0 when absent (see `tencent_emits_zero_gpu_count`). -/
theorem gpu_presence_filters :
    (∀ (instances : List AliInstanceDef) (available : List String),
      ∀ r ∈ ali_get_gpu_instances instances available, 0 < r.gpuCount) ∧
    (∀ (inst : TcInstance) (r : TcRow),
      tcProcessInstance inst = .ok (some r) → 0 < inst.gpu.getD 0) := by
  constructor
  · intro instances available r hr
    obtain ⟨inst, _, hf⟩ := List.mem_filterMap.mp hr
    dsimp only at hf
    rcases ht : inst.instanceTypeId with _ | t <;> rw [ht] at hf
    · simp at hf
    · dsimp only at hf
      by_cases hcond : 0 < inst.gpuAmount.getD 0 ∧ t ≠ "" ∧ t ∈ available
      · rw [if_pos hcond] at hf
        cases Option.some.inj hf
        exact hcond.1
      · rw [if_neg hcond] at hf
        simp at hf
  · intro inst r h
    by_cases hc : inst.gpu.getD 0 > 0
    · exact hc
    · unfold tcProcessInstance at h
      rw [if_neg hc] at h
      simp at h

/-- Witness for `gpu_presence_filters` at concrete instances. -/
theorem gpu_presence_filters_witness :
    (∀ r ∈ ali_get_gpu_instances [aliSampleDef] ["ecs.gn6i-c4g1.xlarge"], 0 < r.gpuCount) ∧
    0 < tcSampleInstance.gpu.getD 0 :=
  ⟨gpu_presence_filters.1 [aliSampleDef] ["ecs.gn6i-c4g1.xlarge"],
   gpu_presence_filters.2 tcSampleInstance tcSampleRow (by rfl)⟩

/-- C8 counterexample: a Tencent instance with `Gpu = 1` but no `GpuCount`
field is emitted with `GPU Count = 0`, refuting "every record has GPU count
strictly greater than 0". -/
theorem tencent_emits_zero_gpu_count :
    tencent_get_standardized_gpu_instances "na-siliconvalley"
      (TcFetch.response (some [tcSampleInstance])) =
      .ok [⟨"Tencent", "na-siliconvalley", "GN7.LARGE20", 4, 20 * (1074 / 1000),
        "NVIDIA T4", 0, 5 * (138 / 1000), 0⟩] := by
  rfl

/-- C9 (amended): when every adapter contributes zero rows the pipeline
does not raise — `fetch_prices` returns the empty table — but `main`
returns before writing anything, so no output artifact (not even a
header-only one) is produced. -/
theorem empty_result_behavior (outcomes : List FetchOutcome)
    (h : ∀ o ∈ outcomes, contributesZero o = true) :
    fetch_prices outcomes = [] ∧ mainOutput outcomes = none := by
  have hc := collectOutcomes_eq_nil outcomes h
  have h1 : fetch_prices outcomes = [] := by
    unfold fetch_prices
    rw [hc]
    rfl
  refine ⟨h1, ?_⟩
  unfold mainOutput
  rw [h1]
  rfl

/-- Witness for `empty_result_behavior`: one raising adapter and one empty
adapter. -/
theorem empty_result_behavior_witness :
    fetch_prices [FetchOutcome.raised, FetchOutcome.fetched []] = [] ∧
    mainOutput [FetchOutcome.raised, FetchOutcome.fetched []] = none :=
  empty_result_behavior [FetchOutcome.raised, FetchOutcome.fetched []] (by decide)

/-- C9 counterexample: with all five providers contributing zero rows,
`main` writes no output file at all (`none`), refuting "emits a zero-row
table (header-only output artifact)". -/
theorem all_empty_writes_no_artifact :
    mainOutput [FetchOutcome.fetched [], FetchOutcome.fetched [], FetchOutcome.fetched [],
      FetchOutcome.fetched [], FetchOutcome.fetched []] = none := by
  rfl

/-- The embedded normalizer on a string is the list normalizer on its
characters. -/
theorem normalize_toList (s : String) :
    (normalize_instance_name s).toList = normalizeNameList s.toList := rfl

/-- Unfolding equation for the string-level normalizer. -/
theorem normalize_mk_eq (s : String) :
    normalize_instance_name s = String.mk (normalizeNameList s.toList) := rfl

/-- C10 (amended): `normalize_instance_name` is idempotent on every input
whose normalized form has no remaining `v<digit>` occurrence;
re-normalizing such an output is the identity. The unconditional claim is
false (see `normalize_instance_name_not_idempotent`): removing dashes and
underscores after the `v<digit>` collapse ran can create a fresh
`v<digit>` pair, as can overlapping occurrences such as `"vv5"`. -/
theorem normalize_idempotent_when_no_vdigit (s : String)
    (h : noVDigit (normalize_instance_name s).toList = true) :
    normalize_instance_name (normalize_instance_name s) = normalize_instance_name s := by
  obtain ⟨h1, h2, h3⟩ := normalizeNameList_props s.toList
  rw [normalize_toList] at h
  have key : normalizeNameList (normalizeNameList s.toList) = normalizeNameList s.toList :=
    normalizeNameList_fix h1 h2 h3 h
  have e1 : normalize_instance_name (normalize_instance_name s) =
      String.mk (normalizeNameList (normalize_instance_name s).toList) := rfl
  rw [e1, normalize_toList, key]
  exact (normalize_mk_eq s).symm

set_option maxHeartbeats 1000000 in
/-- Witness for `normalize_idempotent_when_no_vdigit` on a real Azure SKU
name. -/
theorem normalize_idempotent_witness :
    normalize_instance_name (normalize_instance_name "Standard_NC24ads_A100_v4") =
      normalize_instance_name "Standard_NC24ads_A100_v4" :=
  normalize_idempotent_when_no_vdigit "Standard_NC24ads_A100_v4" (by decide)

/-- C3 (amended): `parse_gpu_info` meets the claimed contract on every
slash-free input and on well-formed fractions, but not on malformed input
containing `/`. In order: (1) `<digits><x|X> <name>` returns the name and
the integer count, for any nonempty stripped name free of `(`, newline and
`/`; (2) a trailing parenthetical annotation is stripped; (3)
`<int>/<int>X <name>` with nonzero denominator returns the exact fraction;
(4) the empty string returns `None`; (5) on any input without `/` the
function returns rather than raising. Malformed fractional inputs raise
uncaught exceptions from `eval` instead of returning `None` (see
`parse_gpu_info_raises_on_malformed_fraction`). -/
theorem parse_gpu_descriptor_behavior :
    (∀ (ds : List Char) (xc : Char) (name : List Char),
      isDigits ds = true → (xc = 'x' ∨ xc = 'X') → name ≠ [] →
      (∀ c ∈ name, c ≠ '(' ∧ c ≠ '\n' ∧ c ≠ '/') → pyStripList name = name →
      parse_gpu_info (String.mk (ds ++ xc :: ' ' :: name)) =
        .ok (some ⟨String.mk name, (natOfDigits ds : ℚ)⟩)) ∧
    (∀ (ds : List Char) (xc : Char) (name annot : List Char),
      isDigits ds = true → (xc = 'x' ∨ xc = 'X') → name ≠ [] →
      (∀ c ∈ name, c ≠ '(' ∧ c ≠ '\n' ∧ c ≠ '/') → pyStripList name = name →
      (∀ c ∈ annot, c ≠ '\n' ∧ c ≠ '/') →
      parse_gpu_info (String.mk (ds ++ xc :: ' ' ::
          (name ++ ' ' :: '(' :: (annot ++ [')'])))) =
        .ok (some ⟨String.mk name, (natOfDigits ds : ℚ)⟩)) ∧
    (∀ (a b name : List Char),
      isDigits a = true → isDigits b = true → natOfDigits b ≠ 0 →
      pyStripList name = name →
      parse_gpu_info (String.mk (a ++ '/' :: (b ++ 'X' :: ' ' :: name))) =
        .ok (some ⟨String.mk name, (natOfDigits a : ℚ) / (natOfDigits b : ℚ)⟩)) ∧
    parse_gpu_info "" = .ok none ∧
    (∀ s : String, '/' ∉ s.toList → ∃ r, parse_gpu_info s = .ok r) :=
  ⟨fun _ _ _ h1 h2 h3 h4 h5 => parse_gpu_info_int h1 h2 h3 h4 h5,
   fun _ _ _ _ h1 h2 h3 h4 h5 h6 => parse_gpu_info_paren h1 h2 h3 h4 h5 h6,
   fun _ _ _ h1 h2 h3 h4 => parse_gpu_info_frac h1 h2 h3 h4,
   rfl,
   parse_gpu_info_no_raise⟩

/-- Witness for `parse_gpu_descriptor_behavior`: the spec's own examples
`"1X V100"`, `"8x A100 (NVlink)"` and `"1/2X A10"`, plus a slash-free
unparsable descriptor. -/
theorem parse_gpu_descriptor_behavior_witness :
    parse_gpu_info (String.mk (['1'] ++ 'X' :: ' ' :: "V100".toList)) =
      .ok (some ⟨String.mk "V100".toList, (natOfDigits ['1'] : ℚ)⟩) ∧
    parse_gpu_info (String.mk (['8'] ++ 'x' :: ' ' ::
        ("A100".toList ++ ' ' :: '(' :: ("NVlink".toList ++ [')'])))) =
      .ok (some ⟨String.mk "A100".toList, (natOfDigits ['8'] : ℚ)⟩) ∧
    parse_gpu_info (String.mk (['1'] ++ '/' :: (['2'] ++ 'X' :: ' ' :: "A10".toList))) =
      .ok (some ⟨String.mk "A10".toList, (natOfDigits ['1'] : ℚ) / (natOfDigits ['2'] : ℚ)⟩) ∧
    ∃ r, parse_gpu_info "GRID K520" = .ok r :=
  ⟨parse_gpu_descriptor_behavior.1 ['1'] 'X' "V100".toList (by decide) (Or.inr rfl)
      (by decide) (by decide) (by decide),
   parse_gpu_descriptor_behavior.2.1 ['8'] 'x' "A100".toList "NVlink".toList (by decide)
      (Or.inl rfl) (by decide) (by decide) (by decide) (by decide),
   parse_gpu_descriptor_behavior.2.2.1 ['1'] ['2'] "A10".toList (by decide) (by decide)
      (by decide) (by decide),
   parse_gpu_descriptor_behavior.2.2.2.2 "GRID K520" (by decide)⟩

/-- C3 counterexample: the malformed fractional descriptor `"1/X A10"`
reaches `eval("1/")`, whose `SyntaxError` is not among the caught
exception classes — `parse_gpu_info` raises instead of returning `None`,
refuting "malformed input returns null rather than raising". -/
theorem parse_gpu_info_raises_on_malformed_fraction :
    parse_gpu_info "1/X A10" = .error PyExc.syntaxError := by
  rfl

set_option maxHeartbeats 1000000 in
/-- C10 counterexample: `normalize_instance_name "v-5"` is `"v5"` (the dash
is removed only after the `v<digit>` substitution ran), and normalizing the
output again gives `"5"` — the normalizer is not idempotent. -/
theorem normalize_instance_name_not_idempotent :
    normalize_instance_name (normalize_instance_name "v-5") ≠
      normalize_instance_name "v-5" := by
  decide

end GpuPricing
